import Mathlib

/-! # qfdk/ip_check — a verification development of `main.go`

The program is one Go file: `getClientIP`, `validateIP`, `getIPResponse`, `handleIP`
and `handleIPJSON`.  These five functions are embedded below, statement by statement.
They call into the Go standard library (`strings`, `net`, `net/netip`, `net/textproto`,
`net/http`, `encoding/json`) and into `geoip2`; the library functions they call are
embedded as executable models in the first part of the file, each under the name it has
in Go.

The models of `net.ParseIP` and `IP.String` follow `net/netip` as of Go 1.22
(`ParseAddr`, `parseIPv4Fields`, `parseIPv6`, `appendTo6`); loops that Go bounds by an
index carry an explicit count of rounds, and the count used is shown to be enough
(`parseIPv6Loop_rounds`, `ParseIP_String`).  The text rendering of `encoding/json` and
the contents of the database are parameters.

Conventions.
* A Go `string` is modelled by the list of its characters (`Str`); the text is taken to
  be valid UTF-8, so that a character of the model is one rune of the Go string.
* A Go `[]byte` is a list of natural numbers below 256; `uint16` groups are natural
  numbers below 65536.
* A `float64` is carried as its IEEE-754 bit pattern; the program only copies
  coordinates and never computes with them.
* The package-level variable `db` is passed explicitly.
-/

namespace IpCheck

/-- A Go string, as the list of its characters. -/
abbrev Str := List Char

/-! ## `unicode`, `strings` -/

/-- Go `unicode.IsSpace`: the Unicode White_Space code points. -/
def isSpace (c : Char) : Bool :=
  let n := c.toNat
  (9 ≤ n && n ≤ 13) || n == 32 || n == 0x85 || n == 0xA0 || n == 0x1680 ||
  (0x2000 ≤ n && n ≤ 0x200a) || n == 0x2028 || n == 0x2029 || n == 0x202f ||
  n == 0x205f || n == 0x3000

/-- Go `strings.TrimSpace`: the string without its leading and trailing white space. -/
def TrimSpace (s : Str) : Str :=
  (s.dropWhile isSpace).rdropWhile isSpace

/-- Go `strings.Split(s, sep)` for a one-character separator: the pieces of `s` between
the occurrences of `sep`; always at least one piece. -/
def Split : Str → Char → List Str
  | [], _ => [[]]
  | c :: cs, sep =>
    if c = sep then [] :: Split cs sep
    else
      match Split cs sep with
      | [] => [[c]]
      | p :: ps => (c :: p) :: ps

/-- Go `strings.Contains(s, substr)`. -/
def Contains : Str → Str → Bool
  | [], sub => sub.isEmpty
  | c :: cs, sub => sub.isPrefixOf (c :: cs) || Contains cs sub

/-! ## `net/netip`, `net`: parsing and printing IP addresses -/

/-- Go `net.IP`: a slice of bytes (4 or 16 of them for an address). -/
abbrev IP := List Nat

/-- Go `netip.parseIPv4Fields`, its loop: `fields` are the octets stored so far (`pos` is
their number), `val` and `digLen` the value and digit count of the current octet, `prev`
the previous character (`none` at index 0). -/
def parseIPv4FieldsLoop (fields : List Nat) (val digLen : Nat) (prev : Option Char) :
    Str → Option (List Nat)
  | [] => if fields.length < 3 then none else some (fields ++ [val])
  | c :: cs =>
    if '0' ≤ c ∧ c ≤ '9' then
      if digLen = 1 ∧ val = 0 then none
      else
        let val1 := val * 10 + (c.toNat - 48)
        if val1 > 255 then none
        else parseIPv4FieldsLoop fields val1 (digLen + 1) (some c) cs
    else if c = '.' then
      if prev = none ∨ cs = [] ∨ prev = some '.' then none
      else if fields.length = 3 then none
      else parseIPv4FieldsLoop (fields ++ [val]) 0 0 (some c) cs
    else none

/-- Go `netip.parseIPv4Fields`: the four octets of a dotted-decimal address. -/
def parseIPv4Fields (s : Str) : Option (List Nat) :=
  parseIPv4FieldsLoop [] 0 0 none s

/-- The value of a hexadecimal digit, as the inner loop of `netip.parseIPv6` reads it. -/
def hexVal (c : Char) : Option Nat :=
  if '0' ≤ c ∧ c ≤ '9' then some (c.toNat - 48)
  else if 'a' ≤ c ∧ c ≤ 'f' then some (c.toNat - 97 + 10)
  else if 'A' ≤ c ∧ c ≤ 'F' then some (c.toNat - 65 + 10)
  else none

/-- The inner loop of `netip.parseIPv6` that reads one hexadecimal group: from offset
`off` and accumulator `acc`, the final offset, the value and the unread rest; `none`
for a group of more than four digits or a value above `0xffff`. -/
def parseHexGroup (off acc : Nat) : Str → Option (Nat × Nat × Str)
  | [] => some (off, acc, [])
  | c :: cs =>
    match hexVal c with
    | none => some (off, acc, c :: cs)
    | some d =>
      if off > 3 then none
      else if acc * 16 + d > 65535 then none
      else parseHexGroup (off + 1) (acc * 16 + d) cs

/-- The state of the main loop of `netip.parseIPv6` when it is left: the unread rest of
the string, the index `i`, the bytes `ip[0..i)` written so far, and `ellipsis`. -/
structure V6State where
  s : Str
  i : Nat
  ip : List Nat
  ellipsis : Option Nat
deriving DecidableEq, Repr

/-- The main loop `for i < 16` of `netip.parseIPv6`.  Each round that continues adds 2
to `i`, so eight rounds are enough; the first argument counts the rounds left. -/
def parseIPv6Loop : Nat → Str → Nat → List Nat → Option Nat → Option V6State
  | 0, s, i, ip, ellipsis => some ⟨s, i, ip, ellipsis⟩
  | rounds + 1, s, i, ip, ellipsis =>
    if ¬ i < 16 then some ⟨s, i, ip, ellipsis⟩
    else
      match parseHexGroup 0 0 s with
      | none => none
      | some (off, acc, rest) =>
        if off = 0 then none
        else if rest.head? = some '.' then
          if ellipsis = none ∧ i ≠ 12 then none
          else if i + 4 > 16 then none
          else
            match parseIPv4Fields s with
            | none => none
            | some f => some ⟨[], i + 4, ip ++ f, ellipsis⟩
        else
          let ip1 := ip ++ [acc / 256, acc % 256]
          let i1 := i + 2
          match rest with
          | [] => some ⟨[], i1, ip1, ellipsis⟩
          | c :: rest1 =>
            if c ≠ ':' then none
            else
              match rest1 with
              | [] => none
              | c1 :: rest2 =>
                if c1 = ':' then
                  if ellipsis.isSome then none
                  else if rest2 = [] then some ⟨[], i1, ip1, some i1⟩
                  else parseIPv6Loop rounds rest2 i1 ip1 (some i1)
                else parseIPv6Loop rounds (c1 :: rest2) i1 ip1 ellipsis

/-- Go `netip.parseIPv6`: the 16 bytes and the zone of a textual IPv6 address. -/
def parseIPv6 (input : Str) : Option (IP × Str) :=
  let split : Option (Str × Str) :=
    if '%' ∈ input then
      let zone := (input.dropWhile (· ≠ '%')).drop 1
      if zone = [] then none else some (input.takeWhile (· ≠ '%'), zone)
    else some (input, [])
  match split with
  | none => none
  | some (s, zone) =>
    let lead : Bool := 2 ≤ s.length ∧ s.take 2 = [':', ':']
    let s1 := if lead then s.drop 2 else s
    let ellipsis : Option Nat := if lead then some 0 else none
    if lead ∧ s1 = [] then some (List.replicate 16 0, zone)
    else
      match parseIPv6Loop 8 s1 0 [] ellipsis with
      | none => none
      | some st =>
        if st.s ≠ [] then none
        else if st.i < 16 then
          match st.ellipsis with
          | none => none
          | some e =>
            some (st.ip.take e ++ List.replicate (16 - st.i) 0 ++ st.ip.drop e, zone)
        else if st.ellipsis.isSome then none
        else some (st.ip, zone)

/-- Go `netip.ParseAddr`, followed by `Addr.As16` and `Addr.Zone`: the first of `.`,
`:` and `%` in the string selects the parser. -/
def ParseAddr (s : Str) : Option (IP × Str) :=
  match s.find? (fun c => c = '.' ∨ c = ':' ∨ c = '%') with
  | none => none
  | some c =>
    if c = '.' then
      match parseIPv4Fields s with
      | none => none
      | some f => some (List.replicate 10 0 ++ [255, 255] ++ f, [])
    else if c = ':' then parseIPv6 s
    else none

/-- Go `net.ParseIP`: the 16-byte form of a textual IPv4 or IPv6 address without a zone,
`none` (Go: `nil`) otherwise. -/
def ParseIP (s : Str) : Option IP :=
  match ParseAddr s with
  | none => none
  | some (ip, zone) => if zone ≠ [] then none else some ip

/-- The digit table `"0123456789abcdef"` of `net/netip`. -/
def digits (n : Nat) : Char :=
  if n < 10 then Char.ofNat (48 + n) else Char.ofNat (87 + n)

/-- Go `netip.appendDecimal`: a byte in decimal. -/
def appendDecimal (x : Nat) : Str :=
  (if x ≥ 100 then [digits (x / 100)] else []) ++
  (if x ≥ 10 then [digits (x / 10 % 10)] else []) ++ [digits (x % 10)]

/-- Go `netip.appendHex`: a 16-bit group in hexadecimal, without leading zeros. -/
def appendHex (x : Nat) : Str :=
  (if x ≥ 0x1000 then [digits (x / 4096)] else []) ++
  (if x ≥ 0x100 then [digits (x / 256 % 16)] else []) ++
  (if x ≥ 0x10 then [digits (x / 16 % 16)] else []) ++ [digits (x % 16)]

/-- Go `Addr.string4` on four bytes. -/
def string4 (p : List Nat) : Str :=
  appendDecimal (p.getD 0 0) ++ '.' :: appendDecimal (p.getD 1 0) ++
  '.' :: appendDecimal (p.getD 2 0) ++ '.' :: appendDecimal (p.getD 3 0)

/-- Go `Addr.v6u16`: the `i`-th 16-bit group of a 16-byte address. -/
def v6u16 (ip : IP) (i : Nat) : Nat :=
  ip.getD (2 * i) 0 * 256 + ip.getD (2 * i + 1) 0

/-- The inner loop of the zero-run search of `Addr.appendTo6`: the first index from `j`
on whose group is not zero (8 if there is none); `n` bounds the steps. -/
def zeroRunEnd (ip : IP) : Nat → Nat → Nat
  | 0, j => j
  | n + 1, j => if j < 8 ∧ v6u16 ip j = 0 then zeroRunEnd ip n (j + 1) else j

/-- The first loop of `Addr.appendTo6`: `(zeroStart, zeroEnd)`, the first longest run of
at least two zero groups, `(255, 255)` if there is none. -/
def zeroRun (ip : IP) : Nat × Nat :=
  (List.range 8).foldl
    (fun (z : Nat × Nat) i =>
      let j := zeroRunEnd ip 8 i
      let l := j - i
      if l ≥ 2 ∧ l > z.2 - z.1 then (i, j) else z)
    (255, 255)

/-- The second loop of `Addr.appendTo6`, from index `i`; `n` bounds the rounds. -/
def appendTo6Loop (ip : IP) (zeroStart zeroEnd : Nat) : Nat → Nat → Str
  | 0, _ => []
  | n + 1, i =>
    if ¬ i < 8 then []
    else if i = zeroStart then
      ':' :: ':' ::
        (if zeroEnd ≥ 8 then []
         else appendHex (v6u16 ip zeroEnd) ++ appendTo6Loop ip zeroStart zeroEnd n (zeroEnd + 1))
    else
      (if i > 0 then [':'] else []) ++ appendHex (v6u16 ip i) ++
        appendTo6Loop ip zeroStart zeroEnd n (i + 1)

/-- Go `Addr.string6` for an address without zone. -/
def string6 (ip : IP) : Str :=
  appendTo6Loop ip (zeroRun ip).1 (zeroRun ip).2 8 0

/-- Go `IP.To4`: the four bytes of an IPv4 or IPv4-mapped address, `none` otherwise. -/
def IP.To4 (ip : IP) : Option (List Nat) :=
  if ip.length = 4 then some ip
  else if ip.length = 16 ∧ (ip.take 10).all (· = 0) ∧ ip.getD 10 0 = 255 ∧ ip.getD 11 0 = 255 then
    some (ip.drop 12)
  else none

/-- Go `net.hexString`: two lower-case hexadecimal digits per byte. -/
def hexString (b : List Nat) : Str :=
  b.flatMap (fun x => [digits (x / 16), digits (x % 16)])

/-- Go `IP.String`: dotted decimal for an IPv4 or IPv4-mapped address, the compressed
IPv6 text otherwise. -/
def IP.String (ip : IP) : Str :=
  if ip.length = 0 then "<nil>".toList
  else if ip.length ≠ 4 ∧ ip.length ≠ 16 then '?' :: hexString ip
  else
    match IP.To4 ip with
    | some p4 => string4 p4
    | none => string6 ip

/-- Go `net.SplitHostPort`: host and port of `host:port`, `[host]:port`; `none` when the
function returns an error. -/
def SplitHostPort (hostport : Str) : Option (Str × Str) :=
  if ':' ∉ hostport then none
  else
    -- `i`: the index of the last colon
    let i := hostport.length - 1 - (hostport.reverse.takeWhile (· ≠ ':')).length
    let bracket : Option (Str × Nat × Nat) :=
      if hostport.head? = some '[' then
        if ']' ∉ hostport then none
        else
          let e := (hostport.takeWhile (· ≠ ']')).length
          if e + 1 = hostport.length then none
          else if e + 1 = i then some ((hostport.take e).drop 1, 1, e + 1)
          else none
      else
        let host := hostport.take i
        if ':' ∈ host then none else some (host, 0, 0)
    match bracket with
    | none => none
    | some (host, j, k) =>
      if '[' ∈ hostport.drop j then none
      else if ']' ∈ hostport.drop k then none
      else some (host, hostport.drop (i + 1))

/-! ## `net/textproto`, `net/http`, `net/url` -/

/-- Go `textproto.validHeaderFieldByte`: the token characters of RFC 7230. -/
def validHeaderFieldByte (c : Char) : Bool :=
  c.isAlphanum || c ∈ "!#$%&'*+-.^_`|~".toList

/-- The canonicalising loop of Go `textproto.canonicalMIMEHeaderKey`: upper case for the
first letter and for a letter after a dash, lower case elsewhere. -/
def canonicalMIMEHeaderKeyLoop : Bool → Str → Str
  | _, [] => []
  | upper, c :: cs =>
    let c1 :=
      if upper ∧ 'a' ≤ c ∧ c ≤ 'z' then Char.ofNat (c.toNat - 32)
      else if ¬ upper ∧ 'A' ≤ c ∧ c ≤ 'Z' then Char.ofNat (c.toNat + 32)
      else c
    c1 :: canonicalMIMEHeaderKeyLoop (c1 = '-') cs

/-- Go `textproto.CanonicalMIMEHeaderKey`: a key with a character that is not a token
character is returned unchanged. -/
def CanonicalMIMEHeaderKey (s : Str) : Str :=
  if s.all validHeaderFieldByte then canonicalMIMEHeaderKeyLoop true s else s

/-- Go `http.Header`, a `map[string][]string`, as an association list. -/
abbrev Header := List (Str × List Str)

/-- Go `Header.Get`: the first value under the canonical form of `key`, or `""`. -/
def Header.Get (h : Header) (key : Str) : Str :=
  match h.lookup (CanonicalMIMEHeaderKey key) with
  | some (v :: _) => v
  | _ => []

/-- Go `Header.Set`: the entry under the canonical form of `key` becomes `[value]`. -/
def Header.Set (h : Header) (key value : Str) : Header :=
  (CanonicalMIMEHeaderKey key, [value]) ::
    h.filter (fun e => e.1 ≠ CanonicalMIMEHeaderKey key)

/-- Go `url.Values`, a `map[string][]string`, as an association list. -/
abbrev Values := List (Str × List Str)

/-- Go `Values.Get`: the first value under `key`, or `""`. -/
def Values.Get (v : Values) (key : Str) : Str :=
  match v.lookup key with
  | some (x :: _) => x
  | _ => []

/-- The part of Go `url.URL` the program reads: `Query` is the result of `URL.Query()`. -/
structure URL where
  Query : Values

/-- The fields of Go `http.Request` the program reads. -/
structure Request where
  Header : Header
  URL : URL
  RemoteAddr : Str

/-- Go `http.ResponseWriter`, as the header map and the bytes written so far. -/
structure ResponseWriter where
  Header : Header
  Body : Str

/-! ## `geoip2` -/

/-- A `float64`, as its IEEE-754 bit pattern. -/
structure float64 where
  bits : Nat
deriving DecidableEq, Repr

/-- The zero value of `float64`. -/
def float64.zero : float64 := ⟨0⟩

/-- Go `x == 0` on a `float64`: true of `+0` and of `-0`. -/
def float64.isZero (x : float64) : Bool := x.bits = 0 ∨ x.bits = 2 ^ 63

/-- Go `map[string]string`, as an association list. -/
abbrev Names := List (Str × Str)

/-- Indexing a Go `map[string]string`: the zero value `""` for a missing key. -/
def Names.get (m : Names) (key : Str) : Str :=
  (m.lookup key).getD []

/-- A sub-record of `geoip2.City` that carries localised names. -/
structure Named where
  Names : Names

/-- The `Location` sub-record of `geoip2.City` (the fields the program reads). -/
structure GeoLocation where
  Latitude : float64
  Longitude : float64

/-- Go `geoip2.City` (the fields the program reads). -/
structure CityRecord where
  City : Named
  Country : Named
  Subdivisions : List Named
  Location : GeoLocation

/-- Go `geoip2.ISP` (the field the program reads). -/
structure ISPRecord where
  ISP : Str

/-- Go `*geoip2.Reader`, by its two lookups; `none` stands for a non-nil error. -/
structure Reader where
  City : IP → Option CityRecord
  ISP : IP → Option ISPRecord

/-- One call of a lookup method of the reader. -/
inductive Lookup where
  | City (ip : IP)
  | ISP (ip : IP)
deriving DecidableEq, Repr

/-! ## `encoding/json` -/

/-- A JSON value as `encoding/json` builds it from a struct: strings, numbers and objects
with their fields in order. -/
inductive JSON where
  | string (s : Str)
  | number (x : float64)
  | object (fields : List (Str × JSON))

/-- The keys of a JSON object, in order (no keys for another value). -/
def JSON.keys : JSON → List Str
  | JSON.object fields => fields.map Prod.fst
  | _ => []

/-- The value of the first field `key` of a JSON object. -/
def JSON.field (key : Str) : JSON → Option JSON
  | JSON.object fields => fields.lookup key
  | _ => none

/-! ## `main.go` -/

/-- The anonymous struct type of `IPResponse.Location`. -/
structure IPResponseLocation where
  Country : Str
  Region : Str
  City : Str
  ISP : Str
  Latitude : float64
  Longitude : float64
deriving DecidableEq, Repr

/-- The struct `IPResponse` of `main.go`. -/
structure IPResponse where
  IP : Str
  Location : IPResponseLocation
deriving DecidableEq, Repr

/-- The JSON value of an `IPResponse`, as its struct tags prescribe: `isp`, `latitude`
and `longitude` are `omitempty`, so they are left out when empty (`""`, zero). -/
def IPResponse.toJSON (v : IPResponse) : JSON :=
  JSON.object [
    ("ip".toList, JSON.string v.IP),
    ("location".toList, JSON.object (
      [("country".toList, JSON.string v.Location.Country),
       ("region".toList, JSON.string v.Location.Region),
       ("city".toList, JSON.string v.Location.City)] ++
      (if v.Location.ISP = [] then [] else [("isp".toList, JSON.string v.Location.ISP)]) ++
      (if v.Location.Latitude.isZero then []
       else [("latitude".toList, JSON.number v.Location.Latitude)]) ++
      (if v.Location.Longitude.isZero then []
       else [("longitude".toList, JSON.number v.Location.Longitude)])))]

/-- Go `json.NewEncoder(w).Encode(v)` for an `IPResponse`: the text of the JSON value and
a newline are written to `w`; nothing is written when the encoder returns an error
(`text` gives `none`).  `text` is the rendering of a JSON value by `encoding/json`. -/
def Encode (text : JSON → Option Str) (w : ResponseWriter) (v : IPResponse) : ResponseWriter :=
  match text v.toJSON with
  | some t => { w with Body := w.Body ++ t ++ ['\n'] }
  | none => w

/-- `validateIP` of `main.go`. -/
def validateIP (ipStr : Str) : Str :=
  match ParseIP (TrimSpace ipStr) with
  | none => []
  | some ip => IP.String ip

/-- The slice `headers` of `getClientIP`. -/
def headers : List Str :=
  ["CF-Connecting-IP".toList, "True-Client-IP".toList, "X-Real-IP".toList,
   "X-Client-IP".toList, "Fastly-Client-IP".toList, "X-Forwarded-For".toList]

/-- The loop `for _, header := range headers` of `getClientIP`, over the headers that
are left: `some ip` when the loop returns `ip`, `none` when it runs to its end. -/
def getClientIPLoop (r : Request) : List Str → Option Str
  | [] => none
  | header :: rest =>
    let value := r.Header.Get header
    if value ≠ [] then
      if header = "X-Forwarded-For".toList then
        let ips := Split value ','
        if ips.length > 0 then
          let ip := TrimSpace (ips.headD [])
          let validIP := validateIP ip
          if validIP ≠ [] then some validIP else getClientIPLoop r rest
        else getClientIPLoop r rest
      else
        let validIP := validateIP value
        if validIP ≠ [] then some validIP else getClientIPLoop r rest
    else getClientIPLoop r rest

/-- `getClientIP` of `main.go`. -/
def getClientIP (r : Request) : Str :=
  match getClientIPLoop r headers with
  | some validIP => validIP
  | none =>
    match SplitHostPort r.RemoteAddr with
    | some (remoteIP, _) =>
      let validIP := validateIP remoteIP
      if validIP ≠ [] then validIP else r.RemoteAddr
    | none =>
      let validIP := validateIP r.RemoteAddr
      if validIP ≠ [] then validIP else r.RemoteAddr

/-- The localised name the program picks from a `Names` map: `zh-CN` when it is not
empty, `en` otherwise (the `if len(... .Names["zh-CN"]) > 0` of `getIPResponse`). -/
def pickName (m : Names) : Str :=
  if (m.get "zh-CN".toList).length > 0 then m.get "zh-CN".toList else m.get "en".toList

/-- `getIPResponse` of `main.go`, with the global `db` as an argument.  Beside the
response, the lookups made on the reader are returned, in order. -/
def getIPResponse (db : Option Reader) (ip : Str) : IPResponse × List Lookup :=
  let response : IPResponse := ⟨ip, ⟨[], [], [], [], float64.zero, float64.zero⟩⟩
  match ParseIP ip, db with
  | some parsedIP, some db =>
    let response1 : IPResponse :=
      match db.City parsedIP with
      | some city =>
        let r1 : IPResponse :=
          { response with Location := { response.Location with
              Country := pickName city.Country.Names } }
        let r2 : IPResponse :=
          match city.Subdivisions with
          | sub0 :: _ =>
            { r1 with Location := { r1.Location with Region := pickName sub0.Names } }
          | [] => r1
        let r3 : IPResponse :=
          { r2 with Location := { r2.Location with City := pickName city.City.Names } }
        { r3 with Location := { r3.Location with
            Latitude := city.Location.Latitude, Longitude := city.Location.Longitude } }
      | none => response
    let response2 : IPResponse :=
      match db.ISP parsedIP with
      | some isp => { response1 with Location := { response1.Location with ISP := isp.ISP } }
      | none => response1
    (response2, [Lookup.City parsedIP, Lookup.ISP parsedIP])
  | _, _ => (response, [])

/-- `handleIP` of `main.go`: the response writer after the handler, and the lookups made
on the reader. -/
def handleIP (db : Option Reader) (text : JSON → Option Str)
    (w : ResponseWriter) (r : Request) : ResponseWriter × List Lookup :=
  let ip := getClientIP r
  let acceptHeader := r.Header.Get "Accept".toList
  let formatParam := r.URL.Query.Get "format".toList
  if Contains acceptHeader "application/json".toList ∨ formatParam = "json".toList then
    let response := getIPResponse db ip
    let w1 : ResponseWriter :=
      { w with Header := w.Header.Set "Content-Type".toList "application/json".toList }
    (Encode text w1 response.1, response.2)
  else
    let w1 : ResponseWriter :=
      { w with Header := w.Header.Set "Content-Type".toList "text/plain".toList }
    ({ w1 with Body := w1.Body ++ (ip ++ ['\n']) }, [])

/-- `handleIPJSON` of `main.go`. -/
def handleIPJSON (db : Option Reader) (text : JSON → Option Str)
    (w : ResponseWriter) (r : Request) : ResponseWriter × List Lookup :=
  let ip := getClientIP r
  let response := getIPResponse db ip
  let w1 : ResponseWriter :=
    { w with Header := w.Header.Set "Content-Type".toList "application/json".toList }
  (Encode text w1 response.1, response.2)

/-! ## The notions of the specification -/

/-- The candidate of a header, in the words of the specification: the header value, and
for `X-Forwarded-For` its first comma-separated entry. -/
def candidate (header value : Str) : Str :=
  if header = "X-Forwarded-For".toList then (Split value ',').headD [] else value

/-- A header yields a valid IP for a request: its value is not empty and `validateIP`
accepts its candidate. -/
def yieldsValidIP (r : Request) (header : Str) : Bool :=
  r.Header.Get header ≠ [] ∧ validateIP (candidate header (r.Header.Get header)) ≠ []

/-- The peer address of the specification: the host part of `RemoteAddr` after splitting
off the port, or the whole of `RemoteAddr` when it does not split. -/
def peerHost (remoteAddr : Str) : Str :=
  match SplitHostPort remoteAddr with
  | some (host, _) => host
  | none => remoteAddr

/-- The localised name of the specification: the `zh-CN` name when it is present and not
empty, otherwise the `en` name, otherwise the empty string. -/
def localName (m : Names) : Str :=
  match m.lookup "zh-CN".toList with
  | some (c :: cs) => c :: cs
  | _ =>
    match m.lookup "en".toList with
    | some n => n
    | none => []

/-- The outcome of the peer-address steps of the specification: the canonical form of
the peer address when it is a valid IP, the raw `RemoteAddr` otherwise. -/
def peerFallback (remoteAddr : Str) : Str :=
  if validateIP (peerHost remoteAddr) ≠ [] then validateIP (peerHost remoteAddr)
  else remoteAddr

/-! ## Example requests -/

/-- A request with the given headers (canonical keys, one value each), no query
parameters and the given peer address. -/
def mkRequest (hs : List (String × String)) (remoteAddr : String) : Request :=
  ⟨hs.map (fun e => (e.1.toList, [e.2.toList])), ⟨[]⟩, remoteAddr.toList⟩

/-- `CF-Connecting-IP: 1.1.1.1` and `X-Real-IP: 2.2.2.2`. -/
def reqTwoValid : Request :=
  mkRequest [("Cf-Connecting-Ip", "1.1.1.1"), ("X-Real-Ip", "2.2.2.2")] "198.51.100.7:40000"

/-- `CF-Connecting-IP: not-an-ip` and `X-Real-IP: 2.2.2.2`. -/
def reqFirstInvalid : Request :=
  mkRequest [("Cf-Connecting-Ip", "not-an-ip"), ("X-Real-Ip", "2.2.2.2")] "198.51.100.7:40000"

/-- `X-Forwarded-For: 3.3.3.3, 4.4.4.4` and no other header. -/
def reqForwarded : Request :=
  mkRequest [("X-Forwarded-For", "3.3.3.3, 4.4.4.4")] "198.51.100.7:40000"

/-- `X-Forwarded-For: unknown, 4.4.4.4` and no other header. -/
def reqForwardedBad : Request :=
  mkRequest [("X-Forwarded-For", "unknown, 4.4.4.4")] "198.51.100.7:40000"

/-- No headers, peer address `203.0.113.5:51234`. -/
def reqPeer : Request := mkRequest [] "203.0.113.5:51234"

/-- No headers, peer address `203.0.113.5` without a port. -/
def reqPeerNoPort : Request := mkRequest [] "203.0.113.5"

/-- No headers, peer address `localhost:8080`. -/
def reqPeerName : Request := mkRequest [] "localhost:8080"

/-- `X-Forwarded-For: 2001:DB8:0:0::1 , 4.4.4.4` and no other header. -/
def reqForwardedV6 : Request :=
  mkRequest [("X-Forwarded-For", "2001:DB8:0:0::1 , 4.4.4.4")] "198.51.100.7:40000"

/-- No headers, an IPv6 link-local peer with a zone: `[fe80::1%eth0]:51234`. -/
def reqPeerZone : Request := mkRequest [] "[fe80::1%eth0]:51234"

/-- The request `reqPeer` with the header `Accept: text/html`. -/
def reqPlain : Request :=
  { reqPeer with Header := [("Accept".toList, ["text/html".toList])] }

/-- The request `reqPeer` with the header `Accept: text/html, application/json`. -/
def reqAcceptJSON : Request :=
  { reqPeer with Header := [("Accept".toList, ["text/html, application/json".toList])] }

/-- The request `reqPeer` with the query `?format=json`. -/
def reqFormatJSON : Request :=
  { reqPeer with URL := ⟨[("format".toList, ["json".toList])]⟩ }

/-- A response writer on which nothing has been set or written. -/
def emptyWriter : ResponseWriter := ⟨[], []⟩

/-- An example city record: a country with an English and a Chinese name, one
subdivision with an English name only, a city without names, coordinates 32.0, 133.0. -/
def exampleCity : CityRecord :=
  { City := ⟨[]⟩
    Country := ⟨[("en".toList, "Australia".toList), ("zh-CN".toList, "澳大利亚".toList)]⟩
    Subdivisions := [⟨[("en".toList, "Queensland".toList)]⟩]
    Location := ⟨⟨0x4040000000000000⟩, ⟨0x4060A00000000000⟩⟩ }

/-- An example reader: a city-only database that knows `1.1.1.1`; every ISP lookup
returns an error. -/
def exampleReader : Reader :=
  { City := fun ip =>
      if ip = [0, 0, 0, 0, 0, 0, 0, 0, 0, 0, 255, 255, 1, 1, 1, 1] then some exampleCity
      else none
    ISP := fun _ => none }

/-- An example reader whose ISP lookup succeeds and whose city lookup fails. -/
def exampleReaderISP : Reader :=
  { City := fun _ => none
    ISP := fun _ => some ⟨"Example Net".toList⟩ }

/-- An example stand-in for the text rendering of `encoding/json`, used to instantiate
the theorems, which hold for every rendering: the keys of the object, each followed by a
blank. -/
def exampleText (v : JSON) : Option Str :=
  some (v.keys.foldr (fun k acc => k ++ ' ' :: acc) [])

/-! ## Auxiliary notions for the proofs about address text -/

/-- The eight 16-bit groups of a 16-byte address. -/
def groups (ip : IP) : List Nat :=
  [v6u16 ip 0, v6u16 ip 1, v6u16 ip 2, v6u16 ip 3, v6u16 ip 4, v6u16 ip 5, v6u16 ip 6,
   v6u16 ip 7]

/-- Groups in hexadecimal, each preceded by a colon. -/
def colonHex (gs : List Nat) : Str :=
  gs.flatMap (fun g => ':' :: appendHex g)

/-- Groups in hexadecimal, separated by colons. -/
def joinHex : List Nat → Str
  | [] => []
  | g :: gs => appendHex g ++ colonHex gs

/-- The bytes of a list of 16-bit groups, high byte first. -/
def bytesOf (gs : List Nat) : List Nat :=
  gs.flatMap (fun g => [g / 256, g % 256])

/-- A well-formed 16-byte address: sixteen bytes, each below 256. -/
def IP.wf (ip : IP) : Prop :=
  ip.length = 16 ∧ ∀ b ∈ ip, b < 256

/-- What the zero-run search of `Addr.appendTo6` may return: `(255, 255)`, or the bounds
of a non-empty run of zero groups. -/
def IsZeroRun (ip : IP) (z : Nat × Nat) : Prop :=
  z = (255, 255) ∨ (z.1 < z.2 ∧ z.2 ≤ 8 ∧ ∀ k, z.1 ≤ k → k < z.2 → v6u16 ip k = 0)


/-! ## `strings.TrimSpace` and `strings.Split` -/

theorem TrimSpace_eq_self (s : Str) (hhead : ∀ c, s.head? = some c → isSpace c = false)
    (hlast : ∀ c, s.getLast? = some c → isSpace c = false) : TrimSpace s = s := by
  unfold TrimSpace
  have h1 : s.dropWhile isSpace = s := by
    cases s with
    | nil => rfl
    | cons a t =>
      have := hhead a rfl
      simp [List.dropWhile_cons, this]
  rw [h1, List.rdropWhile_eq_self_iff]
  intro hl
  have := hlast (s.getLast hl) (List.getLast?_eq_getLast s hl)
  simp [this]

theorem TrimSpace_head (s : Str) (c : Char) (h : (TrimSpace s).head? = some c) :
    isSpace c = false := by
  unfold TrimSpace at h
  obtain ⟨t, ht⟩ := List.rdropWhile_prefix isSpace (l := s.dropWhile isSpace)
  cases hu : (s.dropWhile isSpace).rdropWhile isSpace with
  | nil => rw [hu] at h; simp at h
  | cons a u =>
    rw [hu] at h ht
    simp at h
    subst h
    have hpos : 0 < (s.dropWhile isSpace).length := by rw [← ht]; simp
    have h2 := List.dropWhile_get_zero_not isSpace s hpos
    have h3 : (s.dropWhile isSpace).get ⟨0, hpos⟩ = a := by
      simp [← ht]
    rw [h3] at h2
    simpa using h2

theorem TrimSpace_getLast (s : Str) (c : Char) (h : (TrimSpace s).getLast? = some c) :
    isSpace c = false := by
  unfold TrimSpace at h
  have hne : (s.dropWhile isSpace).rdropWhile isSpace ≠ [] := by
    intro h0; rw [h0] at h; simp at h
  have := List.rdropWhile_last_not isSpace (s.dropWhile isSpace) hne
  rw [List.getLast?_eq_getLast _ hne] at h
  simp at h
  rw [h] at this
  simpa using this

theorem TrimSpace_idem (s : Str) : TrimSpace (TrimSpace s) = TrimSpace s :=
  TrimSpace_eq_self _ (TrimSpace_head s) (TrimSpace_getLast s)

theorem Split_ne_nil (s : Str) (sep : Char) : Split s sep ≠ [] := by
  cases s with
  | nil => simp [Split]
  | cons c cs =>
    unfold Split
    split
    · simp
    · split <;> simp

theorem Split_head (s : Str) (sep : Char) :
    (Split s sep).head? = some (s.takeWhile (· ≠ sep)) := by
  induction s with
  | nil => simp [Split]
  | cons c cs ih =>
    unfold Split
    by_cases h : c = sep
    · simp [h]
    · simp only [h, if_false]
      cases hs : Split cs sep with
      | nil => exact absurd hs (Split_ne_nil cs sep)
      | cons p ps =>
        rw [hs] at ih
        simp at ih
        simp [List.takeWhile_cons, h, ih]

theorem validateIP_TrimSpace (s : Str) : validateIP (TrimSpace s) = validateIP s := by
  unfold validateIP
  rw [TrimSpace_idem]

theorem validateIP_nil : validateIP [] = [] := by decide


/-! ## Printing and parsing of addresses -/

theorem hexVal_digits (d : Nat) (h : d < 16) : hexVal (digits d) = some d := by
  interval_cases d <;> decide

theorem digits_mem_alphabet (d : Nat) (h : d < 16) :
    digits d ∈ "0123456789abcdef".toList := by
  interval_cases d <;> decide

theorem isSpace_alphabet (c : Char) (h : c ∈ "0123456789abcdef:.".toList) :
    isSpace c = false := by
  revert c
  decide

theorem special_alphabet (c : Char) (h : c ∈ "0123456789abcdef".toList) :
    c ≠ '.' ∧ c ≠ ':' ∧ c ≠ '%' := by
  revert c
  decide

theorem appendHex_mem (x : Nat) (hx : x < 65536) :
    ∀ c ∈ appendHex x, c ∈ "0123456789abcdef".toList := by
  intro c hc
  unfold appendHex at hc
  simp only [List.mem_append, List.mem_singleton] at hc
  rcases hc with ((hc | hc) | hc) | hc
  · split at hc
    · simp only [List.mem_singleton] at hc
      subst hc
      exact digits_mem_alphabet _ (by omega)
    · simp at hc
  · split at hc
    · simp only [List.mem_singleton] at hc
      subst hc
      exact digits_mem_alphabet _ (by omega)
    · simp at hc
  · split at hc
    · simp only [List.mem_singleton] at hc
      subst hc
      exact digits_mem_alphabet _ (by omega)
    · simp at hc
  · subst hc
    exact digits_mem_alphabet _ (by omega)

theorem appendDecimal_mem (x : Nat) (hx : x < 256) :
    ∀ c ∈ appendDecimal x, c ∈ "0123456789abcdef".toList := by
  intro c hc
  unfold appendDecimal at hc
  simp only [List.mem_append, List.mem_singleton] at hc
  rcases hc with (hc | hc) | hc
  · split at hc
    · simp only [List.mem_singleton] at hc
      subst hc
      exact digits_mem_alphabet _ (by omega)
    · simp at hc
  · split at hc
    · simp only [List.mem_singleton] at hc
      subst hc
      exact digits_mem_alphabet _ (by omega)
    · simp at hc
  · subst hc
    exact digits_mem_alphabet _ (by omega)

theorem parseHexGroup_stop (off acc : Nat) (rest : Str)
    (hrest : ∀ c, rest.head? = some c → hexVal c = none) :
    parseHexGroup off acc rest = some (off, acc, rest) := by
  cases rest with
  | nil => rfl
  | cons c cs =>
    unfold parseHexGroup
    rw [hrest c rfl]

theorem parseHexGroup_digit (off acc d : Nat) (rest : Str) (hd : d < 16) (hoff : off ≤ 3)
    (hacc : acc * 16 + d ≤ 65535) :
    parseHexGroup off acc (digits d :: rest) = parseHexGroup (off + 1) (acc * 16 + d) rest := by
  rw [parseHexGroup, hexVal_digits d hd]
  simp only
  rw [if_neg (by omega), if_neg (by omega)]

theorem parseHexGroup_appendHex (x : Nat) (hx : x < 65536) (rest : Str)
    (hrest : ∀ c, rest.head? = some c → hexVal c = none) :
    ∃ off, off ≠ 0 ∧ parseHexGroup 0 0 (appendHex x ++ rest) = some (off, x, rest) := by
  unfold appendHex
  by_cases h3 : x ≥ 0x1000
  · refine ⟨4, by omega, ?_⟩
    rw [if_pos h3, if_pos (by omega), if_pos (by omega)]
    simp only [List.cons_append, List.nil_append, List.append_assoc]
    rw [parseHexGroup_digit _ _ _ _ (by omega) (by omega) (by omega),
      parseHexGroup_digit _ _ _ _ (by omega) (by omega) (by omega),
      parseHexGroup_digit _ _ _ _ (by omega) (by omega) (by omega),
      parseHexGroup_digit _ _ _ _ (by omega) (by omega) (by omega),
      parseHexGroup_stop _ _ _ hrest]
    have : (((0 * 16 + x / 4096) * 16 + x / 256 % 16) * 16 + x / 16 % 16) * 16 + x % 16 = x := by
      omega
    rw [this]
  · by_cases h2 : x ≥ 0x100
    · refine ⟨3, by omega, ?_⟩
      rw [if_neg h3, if_pos h2, if_pos (by omega)]
      simp only [List.cons_append, List.nil_append, List.append_assoc]
      rw [parseHexGroup_digit _ _ _ _ (by omega) (by omega) (by omega),
        parseHexGroup_digit _ _ _ _ (by omega) (by omega) (by omega),
        parseHexGroup_digit _ _ _ _ (by omega) (by omega) (by omega),
        parseHexGroup_stop _ _ _ hrest]
      have : ((0 * 16 + x / 256 % 16) * 16 + x / 16 % 16) * 16 + x % 16 = x := by
        omega
      rw [this]
    · by_cases h1 : x ≥ 0x10
      · refine ⟨2, by omega, ?_⟩
        rw [if_neg h3, if_neg h2, if_pos h1]
        simp only [List.cons_append, List.nil_append, List.append_assoc]
        rw [parseHexGroup_digit _ _ _ _ (by omega) (by omega) (by omega),
          parseHexGroup_digit _ _ _ _ (by omega) (by omega) (by omega),
          parseHexGroup_stop _ _ _ hrest]
        have : (0 * 16 + x / 16 % 16) * 16 + x % 16 = x := by
          omega
        rw [this]
      · refine ⟨1, by omega, ?_⟩
        rw [if_neg h3, if_neg h2, if_neg h1]
        simp only [List.cons_append, List.nil_append, List.append_assoc]
        rw [parseHexGroup_digit _ _ _ _ (by omega) (by omega) (by omega),
          parseHexGroup_stop _ _ _ hrest]
        have : 0 * 16 + x % 16 = x := by
          omega
        rw [this]


theorem appendHex_cons (x : Nat) (hx : x < 65536) :
    ∃ c t, appendHex x = c :: t ∧ c ∈ "0123456789abcdef".toList := by
  cases h : appendHex x with
  | nil =>
    unfold appendHex at h
    simp at h
  | cons c t =>
    refine ⟨c, t, rfl, ?_⟩
    apply appendHex_mem x hx
    rw [h]
    exact List.mem_cons_self c t

theorem hexVal_colon : hexVal ':' = none := by decide

theorem parseIPv6Loop_group (n i x : Nat) (ip : List Nat) (e : Option Nat) (rest : Str)
    (hn : 0 < n) (hi : i < 16) (hx : x < 65536)
    (hrest : ∀ c, rest.head? = some c → c = ':') :
    parseIPv6Loop n (appendHex x ++ rest) i ip e =
      match rest with
      | [] => some ⟨[], i + 2, ip ++ [x / 256, x % 256], e⟩
      | _ :: rest1 =>
        match rest1 with
        | [] => none
        | c1 :: rest2 =>
          if c1 = ':' then
            if e.isSome then none
            else if rest2 = [] then some ⟨[], i + 2, ip ++ [x / 256, x % 256], some (i + 2)⟩
            else parseIPv6Loop (n - 1) rest2 (i + 2) (ip ++ [x / 256, x % 256]) (some (i + 2))
          else parseIPv6Loop (n - 1) (c1 :: rest2) (i + 2) (ip ++ [x / 256, x % 256]) e := by
  obtain ⟨m, rfl⟩ : ∃ m, n = m + 1 := ⟨n - 1, by omega⟩
  have hstop : ∀ c, rest.head? = some c → hexVal c = none := by
    intro c hc
    rw [hrest c hc]
    exact hexVal_colon
  obtain ⟨off, hoff, hparse⟩ := parseHexGroup_appendHex x hx rest hstop
  rw [parseIPv6Loop]
  simp only [hi, not_true_eq_false, if_false, hparse, hoff, Nat.add_sub_cancel]
  cases rest with
  | nil => simp
  | cons c rest1 =>
    have hc : c = ':' := hrest c rfl
    subst hc
    cases rest1 with
    | nil => simp
    | cons c1 rest2 => simp

theorem parseIPv6Loop_joinHex (gs : List Nat) :
    ∀ (g n i : Nat) (ip : List Nat) (e : Option Nat), gs.length < n →
      i + 2 * (gs.length + 1) ≤ 16 → (∀ x ∈ g :: gs, x < 65536) →
      parseIPv6Loop n (joinHex (g :: gs)) i ip e =
        some ⟨[], i + 2 * (gs.length + 1), ip ++ bytesOf (g :: gs), e⟩ := by
  induction gs with
  | nil =>
    intro g n i ip e hn hi hx
    have := parseIPv6Loop_group n i g ip e [] (by omega) (by simp at hi; omega)
      (hx g (List.mem_cons_self _ _)) (by simp)
    simpa [joinHex, colonHex, bytesOf] using this
  | cons y r ih =>
    intro g n i ip e hn hi hx
    obtain ⟨c, t, hct, hc⟩ := appendHex_cons y (hx y (by simp))
    have hcne : c ≠ ':' := (special_alphabet c hc).2.1
    have hstep := parseIPv6Loop_group n i g ip e (':' :: joinHex (y :: r)) (by omega)
      (by simp at hi; omega) (hx g (List.mem_cons_self _ _)) (by simp)
    have hshape : joinHex (g :: y :: r) = appendHex g ++ ':' :: joinHex (y :: r) := by
      simp [joinHex, colonHex]
    rw [hshape, hstep]
    have hj : joinHex (y :: r) = c :: (t ++ colonHex r) := by
      simp [joinHex, hct]
    rw [hj]
    simp only [hcne, if_false]
    rw [← hj, ih y (n - 1) (i + 2) _ e (by simp at hn; omega) (by simp at hi ⊢; omega)
      (fun x hx1 => hx x (List.mem_cons_of_mem _ hx1))]
    simp [bytesOf]
    omega

theorem parseIPv6Loop_joinHex_ellipsis (gs : List Nat) :
    ∀ (g n i : Nat) (ip : List Nat) (tail : Str), gs.length < n →
      i + 2 * (gs.length + 1) ≤ 16 → (∀ x ∈ g :: gs, x < 65536) →
      parseIPv6Loop n (joinHex (g :: gs) ++ ':' :: ':' :: tail) i ip none =
        if tail = [] then
          some ⟨[], i + 2 * (gs.length + 1), ip ++ bytesOf (g :: gs),
            some (i + 2 * (gs.length + 1))⟩
        else
          parseIPv6Loop (n - (gs.length + 1)) tail (i + 2 * (gs.length + 1))
            (ip ++ bytesOf (g :: gs)) (some (i + 2 * (gs.length + 1))) := by
  induction gs with
  | nil =>
    intro g n i ip tail hn hi hx
    have := parseIPv6Loop_group n i g ip none (':' :: ':' :: tail) (by omega)
      (by simp at hi; omega) (hx g (List.mem_cons_self _ _)) (by simp)
    simpa [joinHex, colonHex, bytesOf] using this
  | cons y r ih =>
    intro g n i ip tail hn hi hx
    obtain ⟨c, t, hct, hc⟩ := appendHex_cons y (hx y (by simp))
    have hcne : c ≠ ':' := (special_alphabet c hc).2.1
    have hstep := parseIPv6Loop_group n i g ip none
      (':' :: (joinHex (y :: r) ++ ':' :: ':' :: tail)) (by omega)
      (by simp at hi; omega) (hx g (List.mem_cons_self _ _)) (by simp)
    have hshape : joinHex (g :: y :: r) ++ ':' :: ':' :: tail =
        appendHex g ++ ':' :: (joinHex (y :: r) ++ ':' :: ':' :: tail) := by
      simp [joinHex, colonHex]
    rw [hshape, hstep]
    have hj : joinHex (y :: r) ++ ':' :: ':' :: tail =
        c :: (t ++ colonHex r ++ ':' :: ':' :: tail) := by
      simp [joinHex, hct]
    rw [hj]
    simp only [hcne, if_false]
    rw [← hj, ih y (n - 1) (i + 2) _ tail (by simp at hn; omega) (by simp at hi ⊢; omega)
      (fun x hx1 => hx x (List.mem_cons_of_mem _ hx1))]
    have e1 : i + 2 + 2 * (r.length + 1) = i + 2 * ((y :: r).length + 1) := by
      simp; omega
    have e2 : n - 1 - (r.length + 1) = n - ((y :: r).length + 1) := by
      simp; omega
    have e3 : ip ++ [g / 256, g % 256] ++ bytesOf (y :: r) = ip ++ bytesOf (g :: y :: r) := by
      simp [bytesOf]
    rw [e1, e2, e3]


theorem colonHex_mem (gs : List Nat) (h : ∀ x ∈ gs, x < 65536) :
    ∀ c ∈ colonHex gs, c ∈ "0123456789abcdef:.".toList := by
  intro c hc
  unfold colonHex at hc
  rw [List.mem_flatMap] at hc
  obtain ⟨g, hg, hcg⟩ := hc
  rcases List.mem_cons.mp hcg with rfl | hcg
  · decide
  · have := appendHex_mem g (h g hg) c hcg
    revert this
    generalize c = d
    revert d
    decide

theorem joinHex_mem (gs : List Nat) (h : ∀ x ∈ gs, x < 65536) :
    ∀ c ∈ joinHex gs, c ∈ "0123456789abcdef:.".toList := by
  intro c hc
  cases gs with
  | nil => simp [joinHex] at hc
  | cons g r =>
    unfold joinHex at hc
    rcases List.mem_append.mp hc with hc | hc
    · have := appendHex_mem g (h g (List.mem_cons_self _ _)) c hc
      revert this
      generalize c = d
      revert d
      decide
    · exact colonHex_mem r (fun x hx => h x (List.mem_cons_of_mem _ hx)) c hc

theorem percent_not_mem (s : Str) (h : ∀ c ∈ s, c ∈ "0123456789abcdef:.".toList) :
    '%' ∉ s := by
  intro hp
  have := h _ hp
  revert this
  decide

theorem joinHex_cons_head (g : Nat) (gs : List Nat) (hg : g < 65536) :
    ∃ c t, joinHex (g :: gs) = c :: t ∧ c ≠ ':' ∧ c ≠ '.' ∧ c ≠ '%' := by
  obtain ⟨c, t, hct, hc⟩ := appendHex_cons g hg
  refine ⟨c, t ++ colonHex gs, by simp [joinHex, hct], (special_alphabet c hc).2.1,
    (special_alphabet c hc).1, (special_alphabet c hc).2.2⟩

theorem length_bytesOf (gs : List Nat) : (bytesOf gs).length = 2 * gs.length := by
  induction gs with
  | nil => rfl
  | cons g r ih =>
    have : bytesOf (g :: r) = g / 256 :: g % 256 :: bytesOf r := by simp [bytesOf]
    rw [this]
    simp [ih]
    omega

theorem bytesOf_append (a b : List Nat) : bytesOf (a ++ b) = bytesOf a ++ bytesOf b := by
  simp [bytesOf]

theorem parseIPv6_joinHex_full (gs : List Nat) (hlen : gs.length = 8)
    (h : ∀ x ∈ gs, x < 65536) : parseIPv6 (joinHex gs) = some (bytesOf gs, []) := by
  cases gs with
  | nil => simp at hlen
  | cons g r =>
    have hperc := percent_not_mem _ (joinHex_mem (g :: r) h)
    obtain ⟨c, t, hct, hc, -, -⟩ := joinHex_cons_head g r (h g (List.mem_cons_self _ _))
    have hlead : ¬ (2 ≤ (joinHex (g :: r)).length ∧ (joinHex (g :: r)).take 2 = [':', ':']) := by
      rw [hct]
      rintro ⟨-, h2⟩
      cases t with
      | nil => simp at h2
      | cons d t => simp at h2; exact hc h2.1
    have hloop := parseIPv6Loop_joinHex r g 8 0 [] none (by simp at hlen; omega)
      (by simp at hlen; omega) h
    unfold parseIPv6
    simp only [hperc, if_false, hlead, decide_False, Bool.false_eq_true, false_and, hloop]
    simp at hlen
    simp [hlen]

theorem parseIPv6_joinHex_ellipsis (a b : List Nat) (hlen : a.length + b.length < 8)
    (ha : ∀ x ∈ a, x < 65536) (hb : ∀ x ∈ b, x < 65536) :
    parseIPv6 (joinHex a ++ ':' :: ':' :: joinHex b) =
      some (bytesOf a ++ List.replicate (16 - 2 * (a.length + b.length)) 0 ++ bytesOf b, []) := by
  have hmem : ∀ c ∈ joinHex a ++ ':' :: ':' :: joinHex b,
      c ∈ "0123456789abcdef:.".toList := by
    intro c hc
    simp only [List.mem_append, List.mem_cons] at hc
    rcases hc with hc | rfl | rfl | hc
    · exact joinHex_mem a ha c hc
    · decide
    · decide
    · exact joinHex_mem b hb c hc
  have hperc := percent_not_mem _ hmem
  unfold parseIPv6
  simp only [hperc, if_false]
  cases a with
  | nil =>
    have hlead : (2 ≤ (joinHex [] ++ ':' :: ':' :: joinHex b).length ∧
        (joinHex [] ++ ':' :: ':' :: joinHex b).take 2 = [':', ':']) := by
      simp [joinHex]
    have hdrop : (joinHex [] ++ ':' :: ':' :: joinHex b).drop 2 = joinHex b := by
      simp [joinHex]
    simp only [hlead, decide_True, if_true, hdrop, and_self, true_and]
    cases b with
    | nil => simp [joinHex, bytesOf]
    | cons y r =>
      obtain ⟨c, t, hct, -, -, -⟩ := joinHex_cons_head y r (hb y (List.mem_cons_self _ _))
      have hne : joinHex (y :: r) ≠ [] := by rw [hct]; simp
      have hloop := parseIPv6Loop_joinHex r y 8 0 [] (some 0) (by simp at hlen; omega)
        (by simp at hlen; omega) hb
      simp only [hne, if_false, hloop]
      simp at hlen
      have h16 : 2 * (r.length + 1) < 16 := by omega
      simp [h16, bytesOf]
  | cons g r =>
    obtain ⟨c, t, hct, hc, -, -⟩ := joinHex_cons_head g r (ha g (List.mem_cons_self _ _))
    have hlead : ¬ (2 ≤ (joinHex (g :: r) ++ ':' :: ':' :: joinHex b).length ∧
        (joinHex (g :: r) ++ ':' :: ':' :: joinHex b).take 2 = [':', ':']) := by
      rw [hct]
      rintro ⟨-, h2⟩
      cases t with
      | nil => simp at h2; exact hc h2
      | cons d t => simp at h2; exact hc h2.1
    have hloop := parseIPv6Loop_joinHex_ellipsis r g 8 0 [] (joinHex b)
      (by simp at hlen; omega) (by simp at hlen; omega) ha
    simp only [hlead, decide_False, Bool.false_eq_true, false_and, if_false, hloop]
    simp only [List.length_cons] at hlen
    cases b with
    | nil =>
      have h16 : 0 + 2 * (r.length + 1) < 16 := by omega
      have hl := length_bytesOf (g :: r)
      simp only [List.length_cons] at hl
      have hnil : joinHex [] = [] := rfl
      have hbn : bytesOf [] = [] := rfl
      simp only [hnil, if_true, h16, ne_eq, not_true_eq_false, if_false, List.nil_append,
        List.length_cons, List.length_nil, Nat.add_zero, Nat.zero_add, hbn, List.append_nil]
      rw [List.take_of_length_le (by rw [hl]), List.drop_of_length_le (by rw [hl]),
        List.append_nil, if_pos (by omega)]
    | cons y r2 =>
      obtain ⟨c2, t2, hct2, -, -, -⟩ := joinHex_cons_head y r2 (hb y (List.mem_cons_self _ _))
      have hne : joinHex (y :: r2) ≠ [] := by rw [hct2]; simp
      simp only [List.length_cons] at hlen
      have hloop2 := parseIPv6Loop_joinHex r2 y (8 - (r.length + 1)) (0 + 2 * (r.length + 1))
        ([] ++ bytesOf (g :: r)) (some (0 + 2 * (r.length + 1))) (by omega) (by omega) hb
      simp only [hne, if_false, hloop2]
      have h16 : 0 + 2 * (r.length + 1) + 2 * (r2.length + 1) < 16 := by omega
      have hl := length_bytesOf (g :: r)
      simp only [List.length_cons] at hl
      simp only [h16, if_true, ne_eq, not_true_eq_false, if_false, List.nil_append,
        List.length_cons]
      rw [List.take_left' (by rw [hl]; omega), List.drop_left' (by rw [hl]; omega)]
      have : 16 - (0 + 2 * (r.length + 1) + 2 * (r2.length + 1)) =
          16 - 2 * (r.length + 1 + (r2.length + 1)) := by omega
      rw [this]


theorem zeroRunEnd_spec (ip : IP) (n : Nat) :
    ∀ j, j ≤ 8 → j ≤ zeroRunEnd ip n j ∧ zeroRunEnd ip n j ≤ 8 ∧
      ∀ k, j ≤ k → k < zeroRunEnd ip n j → v6u16 ip k = 0 := by
  induction n with
  | zero =>
    intro j hj
    refine ⟨Nat.le_refl _, hj, ?_⟩
    intro k h1 h2
    simp only [zeroRunEnd] at h2
    omega
  | succ n ih =>
    intro j hj
    unfold zeroRunEnd
    by_cases h : j < 8 ∧ v6u16 ip j = 0
    · rw [if_pos h]
      obtain ⟨h1, h2, h3⟩ := ih (j + 1) (by omega)
      refine ⟨by omega, h2, ?_⟩
      intro k hk1 hk2
      by_cases hkj : k = j
      · rw [hkj]; exact h.2
      · exact h3 k (by omega) hk2
    · rw [if_neg h]
      refine ⟨Nat.le_refl _, hj, ?_⟩
      intro k h1 h2
      omega

theorem zeroRun_spec (ip : IP) : IsZeroRun ip (zeroRun ip) := by
  have key : ∀ (l : List Nat) (z : Nat × Nat), (∀ i ∈ l, i ≤ 8) → IsZeroRun ip z →
      IsZeroRun ip (l.foldl
        (fun (z : Nat × Nat) i =>
          if zeroRunEnd ip 8 i - i ≥ 2 ∧ zeroRunEnd ip 8 i - i > z.2 - z.1 then
            (i, zeroRunEnd ip 8 i)
          else z) z) := by
    intro l
    induction l with
    | nil => intro z _ hz; exact hz
    | cons i l ih =>
      intro z hl hz
      rw [List.foldl_cons]
      apply ih _ (fun x hx => hl x (List.mem_cons_of_mem _ hx))
      by_cases hc : zeroRunEnd ip 8 i - i ≥ 2 ∧ zeroRunEnd ip 8 i - i > z.2 - z.1
      · rw [if_pos hc]
        obtain ⟨h1, h2, h3⟩ := zeroRunEnd_spec ip 8 i (hl i (List.mem_cons_self _ _))
        right
        exact ⟨by simp only; omega, h2, h3⟩
      · rw [if_neg hc]
        exact hz
  exact key (List.range 8) (255, 255) (fun i hi => by
    have := List.mem_range.mp hi
    omega) (Or.inl rfl)

theorem string6_shape_full (ip : IP) :
    appendTo6Loop ip 255 255 8 0 = joinHex (groups ip) := by
  simp [appendTo6Loop, groups, joinHex, colonHex]

theorem string6_shape_run (ip : IP) (zs ze : Nat) (h1 : zs < ze) (h2 : ze ≤ 8) :
    appendTo6Loop ip zs ze 8 0 =
      joinHex ((groups ip).take zs) ++ ':' :: ':' :: joinHex ((groups ip).drop ze) := by
  interval_cases ze <;> interval_cases zs <;>
    simp [appendTo6Loop, groups, joinHex, colonHex]


theorem length_sixteen (l : List Nat) (h : l.length = 16) :
    ∃ b0 b1 b2 b3 b4 b5 b6 b7 b8 b9 b10 b11 b12 b13 b14 b15,
      l = [b0, b1, b2, b3, b4, b5, b6, b7, b8, b9, b10, b11, b12, b13, b14, b15] := by
  match l, h with
  | [b0, b1, b2, b3, b4, b5, b6, b7, b8, b9, b10, b11, b12, b13, b14, b15], _ =>
    exact ⟨b0, b1, b2, b3, b4, b5, b6, b7, b8, b9, b10, b11, b12, b13, b14, b15, rfl⟩

theorem v6u16_lt (ip : IP) (hwf : IP.wf ip) (k : Nat) : v6u16 ip k < 65536 := by
  have hb : ∀ i, ip.getD i 0 < 256 := by
    intro i
    rw [List.getD_eq_getElem?_getD]
    cases h : ip[i]? with
    | none => simp
    | some b =>
      simp only [Option.getD_some]
      exact hwf.2 b (List.getElem?_mem h)
  unfold v6u16
  have h1 := hb (2 * k)
  have h2 := hb (2 * k + 1)
  omega

theorem groups_lt (ip : IP) (hwf : IP.wf ip) : ∀ x ∈ groups ip, x < 65536 := by
  intro x hx
  unfold groups at hx
  simp only [List.mem_cons, List.mem_singleton, List.not_mem_nil, or_false] at hx
  rcases hx with h | h | h | h | h | h | h | h <;> rw [h] <;> exact v6u16_lt ip hwf _

theorem bytesOf_groups (ip : IP) (hwf : IP.wf ip) : bytesOf (groups ip) = ip := by
  obtain ⟨b0, b1, b2, b3, b4, b5, b6, b7, b8, b9, b10, b11, b12, b13, b14, b15, rfl⟩ :=
    length_sixteen ip hwf.1
  have hb := hwf.2
  simp only [List.mem_cons, List.mem_singleton, List.not_mem_nil, or_false,
    forall_eq_or_imp, forall_eq] at hb
  simp only [bytesOf, groups, v6u16, List.flatMap_cons, List.flatMap_nil, List.getD_cons_zero,
    List.getD_cons_succ, List.cons_append, List.nil_append, List.cons.injEq, and_true,
    Nat.mul_zero, Nat.mul_one, Nat.reduceMul, Nat.reduceAdd, Nat.zero_add]
  omega

theorem bytesOf_groups_run (ip : IP) (hwf : IP.wf ip) (zs ze : Nat) (h1 : zs < ze)
    (h2 : ze ≤ 8) (hz : ∀ k, zs ≤ k → k < ze → v6u16 ip k = 0) :
    bytesOf ((groups ip).take zs) ++
        List.replicate (16 - 2 * (((groups ip).take zs).length + ((groups ip).drop ze).length)) 0 ++
        bytesOf ((groups ip).drop ze) = ip := by
  have hmid : (groups ip) =
      (groups ip).take zs ++ List.replicate (ze - zs) 0 ++ (groups ip).drop ze := by
    interval_cases ze <;> interval_cases zs <;> simp [groups, hz]
  have hlen : ((groups ip).take zs).length + ((groups ip).drop ze).length = 8 - (ze - zs) := by
    simp [groups]
    omega
  have hrep : bytesOf (List.replicate (ze - zs) 0) = List.replicate (2 * (ze - zs)) 0 := by
    generalize ze - zs = n
    induction n with
    | zero => rfl
    | succ n ih =>
      have : bytesOf (List.replicate (n + 1) 0) = 0 :: 0 :: bytesOf (List.replicate n 0) := by
        simp [bytesOf, List.replicate_succ]
      rw [this, ih]
      have : 2 * (n + 1) = (2 * n + 1) + 1 := by omega
      rw [this, List.replicate_succ, List.replicate_succ]
  have h16 : 16 - 2 * (8 - (ze - zs)) = 2 * (ze - zs) := by omega
  rw [hlen, h16, ← hrep, ← bytesOf_append, ← bytesOf_append, ← hmid]
  exact bytesOf_groups ip hwf

theorem parseIPv6_string6 (ip : IP) (hwf : IP.wf ip) : parseIPv6 (string6 ip) = some (ip, []) := by
  unfold string6
  rcases zeroRun_spec ip with h | ⟨h1, h2, h3⟩
  · rw [h]
    simp only
    rw [string6_shape_full, parseIPv6_joinHex_full (groups ip) rfl (groups_lt ip hwf),
      bytesOf_groups ip hwf]
  · rw [string6_shape_run ip _ _ h1 h2,
      parseIPv6_joinHex_ellipsis _ _ (by simp [groups]; omega)
        (fun x hx => groups_lt ip hwf x (List.mem_of_mem_take hx))
        (fun x hx => groups_lt ip hwf x (List.mem_of_mem_drop hx)),
      bytesOf_groups_run ip hwf _ _ h1 h2 h3]


theorem digits_decimal (d : Nat) (h : d < 10) :
    ('0' ≤ digits d ∧ digits d ≤ '9') ∧ (digits d).toNat - 48 = d ∧ digits d ≠ '.' := by
  interval_cases d <;> decide

theorem parseIPv4FieldsLoop_digit (fields : List Nat) (val digLen d : Nat)
    (prev : Option Char) (rest : Str) (hd : d < 10) (hlead : ¬ (digLen = 1 ∧ val = 0))
    (hval : val * 10 + d ≤ 255) :
    parseIPv4FieldsLoop fields val digLen prev (digits d :: rest) =
      parseIPv4FieldsLoop fields (val * 10 + d) (digLen + 1) (some (digits d)) rest := by
  obtain ⟨h1, h2, -⟩ := digits_decimal d hd
  rw [parseIPv4FieldsLoop]
  simp only [h1, and_self, if_true, hlead, if_false, h2]
  rw [if_neg (by omega)]

theorem parseIPv4FieldsLoop_appendDecimal (fields : List Nat) (x : Nat) (prev : Option Char)
    (rest : Str) (hx : x < 256) :
    ∃ k c, c ≠ '.' ∧
      parseIPv4FieldsLoop fields 0 0 prev (appendDecimal x ++ rest) =
        parseIPv4FieldsLoop fields x k (some c) rest := by
  unfold appendDecimal
  by_cases h2 : x ≥ 100
  · refine ⟨3, digits (x % 10), (digits_decimal _ (by omega)).2.2, ?_⟩
    rw [if_pos h2, if_pos (by omega)]
    simp only [List.cons_append, List.nil_append, List.append_assoc]
    rw [parseIPv4FieldsLoop_digit _ _ _ _ _ _ (by omega) (by omega) (by omega),
      parseIPv4FieldsLoop_digit _ _ _ _ _ _ (by omega) (by omega) (by omega),
      parseIPv4FieldsLoop_digit _ _ _ _ _ _ (by omega) (by omega) (by omega)]
    have : ((0 * 10 + x / 100) * 10 + x / 10 % 10) * 10 + x % 10 = x := by omega
    rw [this]
  · by_cases h1 : x ≥ 10
    · refine ⟨2, digits (x % 10), (digits_decimal _ (by omega)).2.2, ?_⟩
      rw [if_neg h2, if_pos h1]
      simp only [List.cons_append, List.nil_append, List.append_assoc]
      rw [parseIPv4FieldsLoop_digit _ _ _ _ _ _ (by omega) (by omega) (by omega),
        parseIPv4FieldsLoop_digit _ _ _ _ _ _ (by omega) (by omega) (by omega)]
      have : (0 * 10 + x / 10 % 10) * 10 + x % 10 = x := by omega
      rw [this]
    · refine ⟨1, digits (x % 10), (digits_decimal _ (by omega)).2.2, ?_⟩
      rw [if_neg h2, if_neg h1]
      simp only [List.cons_append, List.nil_append, List.append_assoc]
      rw [parseIPv4FieldsLoop_digit _ _ _ _ _ _ (by omega) (by omega) (by omega)]
      have : 0 * 10 + x % 10 = x := by omega
      rw [this]

theorem appendDecimal_cons (x : Nat) : ∃ c t, appendDecimal x = c :: t := by
  cases h : appendDecimal x with
  | nil =>
    unfold appendDecimal at h
    simp at h
  | cons c t => exact ⟨c, t, rfl⟩

theorem parseIPv4FieldsLoop_dot (fields : List Nat) (x k : Nat) (c : Char) (rest : Str)
    (hc : c ≠ '.') (hrest : rest ≠ []) (hlen : fields.length ≠ 3) :
    parseIPv4FieldsLoop fields x k (some c) ('.' :: rest) =
      parseIPv4FieldsLoop (fields ++ [x]) 0 0 (some '.') rest := by
  rw [parseIPv4FieldsLoop]
  have hnd : ¬ ('0' ≤ '.' ∧ '.' ≤ '9') := by decide
  simp [hnd, hc, hrest, hlen]

theorem parseIPv4Fields_string4 (a b c d : Nat) (ha : a < 256) (hb : b < 256)
    (hc : c < 256) (hd : d < 256) :
    parseIPv4Fields (string4 [a, b, c, d]) = some [a, b, c, d] := by
  unfold parseIPv4Fields string4
  simp only [List.getD_cons_zero, List.getD_cons_succ]
  obtain ⟨cb, tb, hcb⟩ := appendDecimal_cons b
  obtain ⟨cc, tc, hcc⟩ := appendDecimal_cons c
  obtain ⟨cd, td, hcd⟩ := appendDecimal_cons d
  obtain ⟨k1, c1, hc1, e1⟩ := parseIPv4FieldsLoop_appendDecimal [] a none
    ('.' :: (appendDecimal b ++ ('.' :: (appendDecimal c ++ ('.' :: appendDecimal d))))) ha
  obtain ⟨k2, c2, hc2, e2⟩ := parseIPv4FieldsLoop_appendDecimal [a] b (some '.')
    ('.' :: (appendDecimal c ++ ('.' :: appendDecimal d))) hb
  obtain ⟨k3, c3, hc3, e3⟩ := parseIPv4FieldsLoop_appendDecimal [a, b] c (some '.')
    ('.' :: appendDecimal d) hc
  obtain ⟨k4, c4, hc4, e4⟩ := parseIPv4FieldsLoop_appendDecimal [a, b, c] d (some '.') [] hd
  have s1 : appendDecimal a ++ '.' :: appendDecimal b ++ '.' :: appendDecimal c ++
      '.' :: appendDecimal d = appendDecimal a ++
      ('.' :: (appendDecimal b ++ ('.' :: (appendDecimal c ++ ('.' :: appendDecimal d))))) := by
    simp
  rw [s1, e1, parseIPv4FieldsLoop_dot _ _ _ _ _ hc1 (by rw [hcb]; simp) (by simp)]
  rw [List.nil_append, e2, parseIPv4FieldsLoop_dot _ _ _ _ _ hc2 (by rw [hcc]; simp) (by simp)]
  rw [List.singleton_append, e3,
    parseIPv4FieldsLoop_dot _ _ _ _ _ hc3 (by rw [hcd]; simp) (by simp)]
  rw [List.append_nil] at e4
  rw [List.cons_append, List.singleton_append, e4, parseIPv4FieldsLoop]
  simp

theorem find_special (pre post : Str) (sp : Char)
    (hpre : ∀ c ∈ pre, c ∈ "0123456789abcdef".toList)
    (hsp : sp = '.' ∨ sp = ':' ∨ sp = '%') :
    (pre ++ sp :: post).find? (fun c => c = '.' ∨ c = ':' ∨ c = '%') = some sp := by
  induction pre with
  | nil => simp [hsp]
  | cons c t ih =>
    have h := special_alphabet c (hpre c (List.mem_cons_self _ _))
    rw [List.cons_append, List.find?_cons]
    simp only [h.1, h.2.1, h.2.2, or_self, decide_False]
    exact ih (fun x hx => hpre x (List.mem_cons_of_mem _ hx))

theorem ParseAddr_string4 (a b c d : Nat) (ha : a < 256) (hb : b < 256)
    (hc : c < 256) (hd : d < 256) :
    ParseAddr (string4 [a, b, c, d]) =
      some (List.replicate 10 0 ++ [255, 255] ++ [a, b, c, d], []) := by
  have hfind : (string4 [a, b, c, d]).find? (fun c => c = '.' ∨ c = ':' ∨ c = '%') =
      some '.' := by
    unfold string4
    simp only [List.getD_cons_zero, List.append_assoc]
    exact find_special _ _ _ (appendDecimal_mem a ha) (Or.inl rfl)
  unfold ParseAddr
  rw [hfind]
  simp only [if_true]
  rw [parseIPv4Fields_string4 a b c d ha hb hc hd]

theorem find_special_joinHex (gs : List Nat) (tail : Str) (h : ∀ x ∈ gs, x < 65536) :
    (joinHex gs ++ ':' :: tail).find? (fun c => c = '.' ∨ c = ':' ∨ c = '%') = some ':' := by
  cases gs with
  | nil => simp [joinHex]
  | cons g r =>
    cases r with
    | nil =>
      simp only [joinHex, colonHex, List.flatMap_nil, List.append_nil]
      exact find_special _ _ _ (appendHex_mem g (h g (List.mem_cons_self _ _)))
        (Or.inr (Or.inl rfl))
    | cons y r =>
      simp only [joinHex, colonHex, List.flatMap_cons, List.cons_append, List.append_assoc]
      exact find_special _ _ _ (appendHex_mem g (h g (List.mem_cons_self _ _)))
        (Or.inr (Or.inl rfl))

theorem string6_eq (ip : IP) :
    string6 ip = joinHex (groups ip) ∨
      ∃ zs ze, zs < ze ∧ ze ≤ 8 ∧
        string6 ip = joinHex ((groups ip).take zs) ++ ':' :: ':' :: joinHex ((groups ip).drop ze) := by
  unfold string6
  rcases zeroRun_spec ip with h | ⟨h1, h2, -⟩
  · left
    rw [h]
    exact string6_shape_full ip
  · right
    exact ⟨_, _, h1, h2, string6_shape_run ip _ _ h1 h2⟩

theorem ParseAddr_string6 (ip : IP) (hwf : IP.wf ip) :
    ParseAddr (string6 ip) = some (ip, []) := by
  have hfind : (string6 ip).find? (fun c => c = '.' ∨ c = ':' ∨ c = '%') = some ':' := by
    rcases string6_eq ip with h | ⟨zs, ze, -, -, h⟩
    · rw [h]
      have : joinHex (groups ip) =
          joinHex [v6u16 ip 0] ++ ':' :: joinHex
            [v6u16 ip 1, v6u16 ip 2, v6u16 ip 3, v6u16 ip 4, v6u16 ip 5, v6u16 ip 6,
              v6u16 ip 7] := by
        simp [groups, joinHex, colonHex]
      rw [this]
      exact find_special_joinHex _ _ (fun x hx => by
        rw [List.mem_singleton.mp hx]
        exact v6u16_lt ip hwf 0)
    · rw [h]
      exact find_special_joinHex _ _
        (fun x hx => groups_lt ip hwf x (List.mem_of_mem_take hx))
  unfold ParseAddr
  rw [hfind]
  have hne : ¬ (':' = '.') := by decide
  simp only [hne, if_false, if_true]
  exact parseIPv6_string6 ip hwf


theorem parseIPv4FieldsLoop_wf (s : Str) :
    ∀ (fields : List Nat) (val digLen : Nat) (prev : Option Char) (out : List Nat),
      fields.length ≤ 3 → (∀ b ∈ fields, b < 256) → val < 256 →
      parseIPv4FieldsLoop fields val digLen prev s = some out →
      out.length = 4 ∧ ∀ b ∈ out, b < 256 := by
  induction s with
  | nil =>
    intro fields val digLen prev out hlen hb hval h
    rw [parseIPv4FieldsLoop] at h
    split at h
    · cases h
    · simp only [Option.some.injEq] at h
      subst h
      constructor
      · simp; omega
      · intro b hbm
        rcases List.mem_append.mp hbm with hbm | hbm
        · exact hb b hbm
        · rw [List.mem_singleton.mp hbm]; exact hval
  | cons c cs ih =>
    intro fields val digLen prev out hlen hb hval h
    rw [parseIPv4FieldsLoop] at h
    split at h
    · split at h
      · cases h
      · simp only at h
        split at h
        · cases h
        · exact ih _ _ _ _ _ hlen hb (by omega) h
    · split at h
      · split at h
        · cases h
        · split at h
          · cases h
          · refine ih _ _ _ _ _ (by simp; omega) ?_ (by omega) h
            intro b hbm
            rcases List.mem_append.mp hbm with hbm | hbm
            · exact hb b hbm
            · rw [List.mem_singleton.mp hbm]; exact hval
      · cases h

theorem parseHexGroup_le (s : Str) :
    ∀ (off acc off1 acc1 : Nat) (rest : Str), acc ≤ 65535 →
      parseHexGroup off acc s = some (off1, acc1, rest) → acc1 ≤ 65535 := by
  induction s with
  | nil =>
    intro off acc off1 acc1 rest hacc h
    rw [parseHexGroup] at h
    simp only [Option.some.injEq, Prod.mk.injEq] at h
    omega
  | cons c cs ih =>
    intro off acc off1 acc1 rest hacc h
    rw [parseHexGroup] at h
    split at h
    · simp only [Option.some.injEq, Prod.mk.injEq] at h
      omega
    · split at h
      · cases h
      · split at h
        · cases h
        · exact ih _ _ _ _ _ (by omega) h

/-- The invariant of the main loop of `netip.parseIPv6`. -/
theorem parseIPv6Loop_wf (rounds : Nat) :
    ∀ (s : Str) (i : Nat) (ip : List Nat) (e : Option Nat) (st : V6State),
      ip.length = i → i % 2 = 0 → i ≤ 16 → (∀ b ∈ ip, b < 256) →
      (∀ x, e = some x → x ≤ i) →
      parseIPv6Loop rounds s i ip e = some st →
      st.ip.length = st.i ∧ st.i ≤ 16 ∧ (∀ b ∈ st.ip, b < 256) ∧
        (∀ x, st.ellipsis = some x → x ≤ st.i) := by
  induction rounds with
  | zero =>
    intro s i ip e st hlen heven hi hb he h
    rw [parseIPv6Loop] at h
    simp only [Option.some.injEq] at h
    subst h
    exact ⟨hlen, hi, hb, he⟩
  | succ n ih =>
    intro s i ip e st hlen heven hi hb he h
    rw [parseIPv6Loop] at h
    split at h
    · simp only [Option.some.injEq] at h
      subst h
      exact ⟨hlen, hi, hb, he⟩
    · rename_i hi16
      split at h
      · cases h
      · rename_i off acc rest hparse
        have hacc := parseHexGroup_le s 0 0 off acc rest (by omega) hparse
        have hb1 : ∀ b ∈ ip ++ [acc / 256, acc % 256], b < 256 := by
          intro b hbm
          rcases List.mem_append.mp hbm with hbm | hbm
          · exact hb b hbm
          · simp only [List.mem_cons, List.mem_singleton, List.not_mem_nil, or_false] at hbm
            rcases hbm with rfl | rfl <;> omega
        have hlen1 : (ip ++ [acc / 256, acc % 256]).length = i + 2 := by
          simp [hlen]
        split at h
        · cases h
        · split at h
          · split at h
            · cases h
            · split at h
              · cases h
              · rename_i h4
                split at h
                · cases h
                · rename_i f hf
                  have hfw := parseIPv4FieldsLoop_wf s [] 0 0 none f (by simp) (by simp)
                    (by omega) hf
                  simp only [Option.some.injEq] at h
                  subst h
                  refine ⟨by simp [hlen, hfw.1], by simp at h4 ⊢; omega, ?_, ?_⟩
                  · intro b hbm
                    rcases List.mem_append.mp hbm with hbm | hbm
                    · exact hb b hbm
                    · exact hfw.2 b hbm
                  · intro x hx
                    have := he x hx
                    simp only
                    omega
          · simp only at h
            split at h
            · simp only [Option.some.injEq] at h
              subst h
              refine ⟨hlen1, by simp only; omega, hb1, ?_⟩
              intro x hx
              have := he x hx
              simp only
              omega
            · split at h
              · cases h
              · split at h
                · cases h
                · split at h
                  · split at h
                    · cases h
                    · split at h
                      · simp only [Option.some.injEq] at h
                        subst h
                        refine ⟨hlen1, by simp only; omega, hb1, ?_⟩
                        intro x hx
                        simp only [Option.some.injEq] at hx
                        simp only
                        omega
                      · exact ih _ _ _ _ _ hlen1 (by omega) (by omega) hb1
                          (by intro x hx; simp only [Option.some.injEq] at hx; omega) h
                  · exact ih _ _ _ _ _ hlen1 (by omega) (by omega) hb1
                      (by intro x hx; have := he x hx; omega) h


theorem parseIPv6_finish_wf (st : V6State) (zone : Str) (ip : IP) (zone1 : Str)
    (hst : st.ip.length = st.i ∧ st.i ≤ 16 ∧ (∀ b ∈ st.ip, b < 256) ∧
      (∀ x, st.ellipsis = some x → x ≤ st.i))
    (h : (if st.s ≠ [] then none
        else if st.i < 16 then
          match st.ellipsis with
          | none => none
          | some e =>
            some (st.ip.take e ++ List.replicate (16 - st.i) 0 ++ st.ip.drop e, zone)
        else if st.ellipsis.isSome then none
        else some (st.ip, zone)) = some (ip, zone1)) : IP.wf ip := by
  obtain ⟨h1, h2, h3, h4⟩ := hst
  split at h
  · cases h
  · split at h
    · split at h
      · cases h
      · rename_i e he
        simp only [Option.some.injEq, Prod.mk.injEq] at h
        rw [← h.1]
        have hle := h4 e he
        constructor
        · simp only [List.length_append, List.length_take, List.length_replicate,
            List.length_drop, h1]
          omega
        · intro b hb
          simp only [List.mem_append] at hb
          rcases hb with (hb | hb) | hb
          · exact h3 b (List.mem_of_mem_take hb)
          · rw [(List.mem_replicate.mp hb).2]; omega
          · exact h3 b (List.mem_of_mem_drop hb)
    · split at h
      · cases h
      · simp only [Option.some.injEq, Prod.mk.injEq] at h
        rw [← h.1]
        exact ⟨by omega, h3⟩

theorem parseIPv6_wf (s : Str) (ip : IP) (zone : Str) (h : parseIPv6 s = some (ip, zone)) :
    IP.wf ip := by
  unfold parseIPv6 at h
  simp only at h
  split at h
  · cases h
  · rename_i s0 zone0 _
    by_cases hl : 2 ≤ s0.length ∧ s0.take 2 = [':', ':']
    · simp only [hl, and_self, decide_True, if_true, true_and] at h
      by_cases hs : s0.drop 2 = []
      · rw [if_pos hs] at h
        simp only [Option.some.injEq, Prod.mk.injEq] at h
        rw [← h.1]
        exact ⟨by simp, fun b hb => by rw [(List.mem_replicate.mp hb).2]; omega⟩
      · rw [if_neg hs] at h
        cases hst : parseIPv6Loop 8 (s0.drop 2) 0 [] (some 0) with
        | none => rw [hst] at h; cases h
        | some st =>
          rw [hst] at h
          have hwf := parseIPv6Loop_wf 8 _ 0 [] _ st rfl rfl (by omega) (by simp)
            (by intro x hx; simp only [Option.some.injEq] at hx; omega) hst
          exact parseIPv6_finish_wf st zone0 ip zone hwf h
    · simp only [hl, decide_False, Bool.false_eq_true, if_false, false_and] at h
      cases hst : parseIPv6Loop 8 s0 0 [] none with
      | none => rw [hst] at h; cases h
      | some st =>
        rw [hst] at h
        have hwf := parseIPv6Loop_wf 8 _ 0 [] _ st rfl rfl (by omega) (by simp)
          (by intro x hx; cases hx) hst
        exact parseIPv6_finish_wf st zone0 ip zone hwf h

theorem ParseIP_wf (s : Str) (ip : IP) (h : ParseIP s = some ip) : IP.wf ip := by
  unfold ParseIP at h
  split at h
  · cases h
  · rename_i ip0 zone hpa
    split at h
    · cases h
    · simp only [Option.some.injEq] at h
      subst h
      unfold ParseAddr at hpa
      split at hpa
      · cases hpa
      · split at hpa
        · split at hpa
          · cases hpa
          · rename_i f hf
            simp only [Option.some.injEq, Prod.mk.injEq] at hpa
            rw [← hpa.1]
            have hfw := parseIPv4FieldsLoop_wf s [] 0 0 none f (by simp) (by simp)
              (by omega) hf
            constructor
            · simp [hfw.1]
            · intro b hb
              simp only [List.mem_append, List.mem_cons, List.mem_singleton,
                List.not_mem_nil, or_false] at hb
              rcases hb with (hb | hb | hb) | hb
              · rw [(List.mem_replicate.mp hb).2]; omega
              · omega
              · omega
              · exact hfw.2 b hb
        · split at hpa
          · exact parseIPv6_wf s _ _ hpa
          · cases hpa

/-- Printing a well-formed address and parsing the text gives the address back. -/
theorem ParseIP_String (ip : IP) (hwf : IP.wf ip) : ParseIP (IP.String ip) = some ip := by
  have h16 := hwf.1
  unfold IP.String
  rw [if_neg (by omega), if_neg (by omega)]
  cases h4 : IP.To4 ip with
  | none =>
    simp only
    unfold ParseIP
    rw [ParseAddr_string6 ip hwf]
    simp
  | some p4 =>
    simp only
    obtain ⟨b0, b1, b2, b3, b4, b5, b6, b7, b8, b9, b10, b11, b12, b13, b14, b15, rfl⟩ :=
      length_sixteen ip h16
    have hb := hwf.2
    simp only [List.mem_cons, List.mem_singleton, List.not_mem_nil, or_false,
      forall_eq_or_imp, forall_eq] at hb
    unfold IP.To4 at h4
    rw [if_neg (by simp)] at h4
    split at h4
    · rename_i hc
      simp only [Option.some.injEq] at h4
      subst h4
      simp at hc
      obtain ⟨⟨e0, e1, e2, e3, e4, e5, e6, e7, e8, e9⟩, e10, e11⟩ := hc
      subst e0 e1 e2 e3 e4 e5 e6 e7 e8 e9 e10 e11
      have : List.drop 12 [0, 0, 0, 0, 0, 0, 0, 0, 0, 0, 255, 255, b12, b13, b14, b15] =
          [b12, b13, b14, b15] := rfl
      rw [this]
      unfold ParseIP
      rw [ParseAddr_string4 b12 b13 b14 b15 (by omega) (by omega) (by omega) (by omega)]
      simp
    · cases h4

theorem String_mem (ip : IP) (hwf : IP.wf ip) :
    IP.String ip ≠ [] ∧ ∀ c ∈ IP.String ip, c ∈ "0123456789abcdef:.".toList := by
  have h16 := hwf.1
  unfold IP.String
  rw [if_neg (by omega), if_neg (by omega)]
  cases h4 : IP.To4 ip with
  | none =>
    simp only
    rcases string6_eq ip with h | ⟨zs, ze, -, -, h⟩
    · rw [h]
      constructor
      · simp [groups, joinHex, colonHex]
      · exact joinHex_mem _ (groups_lt ip hwf)
    · rw [h]
      constructor
      · simp
      · intro c hc
        simp only [List.mem_append, List.mem_cons] at hc
        rcases hc with hc | rfl | rfl | hc
        · exact joinHex_mem _ (fun x hx => groups_lt ip hwf x (List.mem_of_mem_take hx)) c hc
        · decide
        · decide
        · exact joinHex_mem _ (fun x hx => groups_lt ip hwf x (List.mem_of_mem_drop hx)) c hc
  | some p4 =>
    simp only
    have hp : ∀ i, p4.getD i 0 < 256 := by
      intro i
      rw [List.getD_eq_getElem?_getD]
      cases h : p4[i]? with
      | none => simp
      | some b =>
        simp only [Option.getD_some]
        have hm : b ∈ p4 := List.getElem?_mem h
        unfold IP.To4 at h4
        rw [if_neg (by omega)] at h4
        split at h4
        · simp only [Option.some.injEq] at h4
          subst h4
          exact hwf.2 b (List.mem_of_mem_drop hm)
        · cases h4
    have hsub : ∀ c ∈ "0123456789abcdef".toList, c ∈ "0123456789abcdef:.".toList := by decide
    unfold string4
    constructor
    · simp
    · intro c hc
      simp only [List.mem_append, List.mem_cons] at hc
      rcases hc with ((hc | rfl | hc) | rfl | hc) | rfl | hc
      · exact hsub c (appendDecimal_mem _ (hp 0) c hc)
      · decide
      · exact hsub c (appendDecimal_mem _ (hp 1) c hc)
      · decide
      · exact hsub c (appendDecimal_mem _ (hp 2) c hc)
      · decide
      · exact hsub c (appendDecimal_mem _ (hp 3) c hc)

theorem TrimSpace_String (ip : IP) (hwf : IP.wf ip) :
    TrimSpace (IP.String ip) = IP.String ip := by
  obtain ⟨-, hmem⟩ := String_mem ip hwf
  apply TrimSpace_eq_self
  · intro c hc
    exact isSpace_alphabet c (hmem c (List.mem_of_mem_head? hc))
  · intro c hc
    exact isSpace_alphabet c (hmem c (List.mem_of_mem_getLast? hc))

/-- The canonical form is a fixed point of `validateIP`. -/
theorem validateIP_idem (s : Str) : validateIP (validateIP s) = validateIP s := by
  unfold validateIP
  cases h : ParseIP (TrimSpace s) with
  | none => rfl
  | some ip =>
    have hwf := ParseIP_wf _ ip h
    simp only
    rw [TrimSpace_String ip hwf, ParseIP_String ip hwf]

theorem validateIP_ne_nil (s : Str) (h : validateIP s ≠ []) :
    ∃ ip, ParseIP (validateIP s) = some ip ∧ IP.String ip = validateIP s := by
  unfold validateIP at h ⊢
  cases hp : ParseIP (TrimSpace s) with
  | none => rw [hp] at h; exact absurd rfl h
  | some ip =>
    have hwf := ParseIP_wf _ ip hp
    exact ⟨ip, ParseIP_String ip hwf, rfl⟩

theorem ParseIP_validateIP (s : Str) (h : validateIP s ≠ []) :
    ParseIP (validateIP s) = ParseIP (TrimSpace s) := by
  unfold validateIP at h ⊢
  cases hp : ParseIP (TrimSpace s) with
  | none => rw [hp] at h; exact absurd rfl h
  | some ip => exact ParseIP_String ip (ParseIP_wf _ ip hp)

/-- Eight rounds are enough for the main loop of `netip.parseIPv6`: more rounds give the
same result. -/
theorem parseIPv6Loop_rounds (n : Nat) :
    ∀ (k : Nat) (s : Str) (i : Nat) (ip : List Nat) (e : Option Nat), 16 ≤ i + 2 * n →
      parseIPv6Loop (n + k) s i ip e = parseIPv6Loop n s i ip e := by
  induction n with
  | zero =>
    intro k s i ip e h
    cases k with
    | zero => rfl
    | succ k =>
      rw [Nat.zero_add, parseIPv6Loop, parseIPv6Loop, if_pos (by omega)]
  | succ n ih =>
    intro k s i ip e h
    have hk : n + 1 + k = (n + k) + 1 := by omega
    rw [hk, parseIPv6Loop, parseIPv6Loop]
    simp only [ih k _ (i + 2) _ _ (by omega)]


/-! ## `net.SplitHostPort` -/

theorem dropWhile_ne_cons (l : Str) (x : Char) (h : x ∈ l) :
    ∃ d, l.dropWhile (· ≠ x) = x :: d := by
  induction l with
  | nil => cases h
  | cons c t ih =>
    by_cases hc : c = x
    · exact ⟨t, by rw [List.dropWhile_cons]; simp [hc]⟩
    · have hx : x ∈ t := by
        rcases List.mem_cons.mp h with h | h
        · exact absurd h.symm hc
        · exact h
      obtain ⟨d, hd⟩ := ih hx
      refine ⟨d, ?_⟩
      rw [List.dropWhile_cons, if_pos (by simp [hc])]
      exact hd

theorem first_split (a : Str) (x : Char) (h : x ∈ a) :
    ∃ d, a = a.takeWhile (· ≠ x) ++ x :: d := by
  obtain ⟨d, hd⟩ := dropWhile_ne_cons a x h
  refine ⟨d, ?_⟩
  rw [← hd, List.takeWhile_append_dropWhile]

theorem lastColon_split (a : Str) (h : ':' ∈ a) :
    ∃ p q, a = p ++ ':' :: q ∧
      a.length - 1 - (a.reverse.takeWhile (· ≠ ':')).length = p.length := by
  obtain ⟨d, hd⟩ := first_split a.reverse ':' (List.mem_reverse.mpr h)
  generalize a.reverse.takeWhile (· ≠ ':') = t at hd
  have ha : a = d.reverse ++ ':' :: t.reverse := by
    have := congrArg List.reverse hd
    rw [List.reverse_reverse] at this
    rw [this]
    simp
  refine ⟨d.reverse, t.reverse, ha, ?_⟩
  rw [ha]
  simp

/-- Go `net.SplitHostPort` only cuts: when it succeeds, the address is `host:port` or
`[host]:port`. -/
theorem SplitHostPort_eq (a host port : Str) (h : SplitHostPort a = some (host, port)) :
    a = host ++ ':' :: port ∨ a = '[' :: (host ++ ']' :: ':' :: port) := by
  unfold SplitHostPort at h
  by_cases hcolon : ':' ∈ a
  · rw [if_neg (not_not.mpr hcolon)] at h
    obtain ⟨p, q, hpq, hi⟩ := lastColon_split a hcolon
    rw [hi] at h
    have htake : a.take p.length = p := by
      rw [hpq]; exact List.take_left' rfl
    have hdrop : a.drop (p.length + 1) = q := by
      rw [hpq]; simp
    simp only [htake, hdrop] at h
    by_cases hbr : a.head? = some '['
    · rw [if_pos hbr] at h
      by_cases hclose : ']' ∈ a
      · rw [if_neg (not_not.mpr hclose)] at h
        obtain ⟨d, hd⟩ := first_split a ']' hclose
        generalize hte : a.takeWhile (· ≠ ']') = t at hd h
        have htake2 : a.take t.length = t := by
          rw [hd]; exact List.take_left' rfl
        rw [htake2] at h
        by_cases h1 : t.length + 1 = a.length
        · rw [if_pos h1] at h
          cases h
        · rw [if_neg h1] at h
          by_cases h2 : t.length + 1 = p.length
          · rw [if_pos h2] at h
            simp only at h
            split at h
            · cases h
            · split at h
              · cases h
              · simp only [Option.some.injEq, Prod.mk.injEq] at h
                obtain ⟨hh, hp⟩ := h
                right
                -- `t` starts with the bracket, and `p` is `t` followed by `]`
                have ht : t = '[' :: host := by
                  cases t with
                  | nil => rw [hd] at hbr; simp at hbr
                  | cons t0 t1 =>
                    rw [hd] at hbr
                    simp at hbr hh
                    rw [hbr, hh]
                have hp2 : p = t ++ [']'] := by
                  have e : t ++ ']' :: d = p ++ ':' :: q := by rw [← hd, ← hpq]
                  have e2 : (t ++ [']']) ++ d = p ++ ':' :: q := by simpa using e
                  have := List.append_inj_left e2 (by simp; omega)
                  exact this.symm
                rw [hpq, hp2, ht, ← hp]
                simp
          · rw [if_neg h2] at h
            cases h
      · rw [if_pos hclose] at h
        cases h
    · rw [if_neg hbr] at h
      by_cases hp : ':' ∈ p
      · rw [if_pos hp] at h
        cases h
      · rw [if_neg hp] at h
        simp only at h
        split at h
        · cases h
        · split at h
          · cases h
          · simp only [Option.some.injEq, Prod.mk.injEq] at h
            left
            rw [← h.1, ← h.2]
            exact hpq
  · rw [if_pos hcolon] at h
    cases h


/-! ## `getClientIP` -/

theorem getClientIPLoop_cons (r : Request) (header : Str) (rest : List Str) :
    getClientIPLoop r (header :: rest) =
      if yieldsValidIP r header then
        some (validateIP (candidate header (r.Header.Get header)))
      else getClientIPLoop r rest := by
  have hlen : (Split (r.Header.Get header) ',').length > 0 :=
    List.length_pos.mpr (Split_ne_nil _ _)
  simp only [getClientIPLoop, yieldsValidIP, candidate, validateIP_TrimSpace, hlen, if_true]
  by_cases hv : r.Header.Get header = []
  · simp only [hv, ne_eq, not_true_eq_false, false_and, decide_False, if_false,
      Bool.false_eq_true]
  · by_cases hx : header = "X-Forwarded-For".toList
    · subst hx
      by_cases hval :
          validateIP ((Split (r.Header.Get "X-Forwarded-For".toList) ',').headD []) = []
      · simp only [hv, hval, ne_eq, not_true_eq_false, not_false_eq_true, and_false,
          decide_False, if_false, if_true, Bool.false_eq_true]
      · simp only [hv, hval, ne_eq, not_false_eq_true, and_self, decide_True, if_true]
    · by_cases hval : validateIP (r.Header.Get header) = []
      · simp only [hv, hx, hval, ne_eq, not_true_eq_false, not_false_eq_true, and_false,
          decide_False, if_false, if_true, Bool.false_eq_true]
      · simp only [hv, hx, hval, ne_eq, not_false_eq_true, and_self, decide_True,
          if_true, if_false]

theorem getClientIPLoop_find (r : Request) (hs : List Str) :
    getClientIPLoop r hs =
      (hs.find? (yieldsValidIP r)).map
        (fun h => validateIP (candidate h (r.Header.Get h))) := by
  induction hs with
  | nil => simp [getClientIPLoop]
  | cons h rest ih =>
    rw [getClientIPLoop_cons, List.find?_cons]
    by_cases hy : yieldsValidIP r h = true
    · simp [hy]
    · simp [hy, ih]

theorem getClientIP_of_none (r : Request) (h : getClientIPLoop r headers = none) :
    getClientIP r = peerFallback r.RemoteAddr := by
  unfold getClientIP peerFallback peerHost
  rw [h]
  cases hs : SplitHostPort r.RemoteAddr with
  | none => simp
  | some p => simp

theorem getClientIPLoop_none (r : Request) (hs : List Str)
    (h : ∀ x ∈ hs, yieldsValidIP r x = false) : getClientIPLoop r hs = none := by
  rw [getClientIPLoop_find]
  have : hs.find? (yieldsValidIP r) = none := by
    rw [List.find?_eq_none]
    intro x hx
    simp [h x hx]
  simp [this]

/-- C1. First match wins: when `h` is the first header, in the fixed order, whose value
is not empty and whose candidate `validateIP` accepts, `getClientIP` returns the canonical
form of the candidate of `h`; later headers and the peer address play no part. -/
theorem getClientIP_first_match (r : Request) (h : Str)
    (hfirst : headers.find? (yieldsValidIP r) = some h) :
    getClientIP r = validateIP (candidate h (r.Header.Get h)) := by
  unfold getClientIP
  rw [getClientIPLoop_find, hfirst]
  rfl

theorem getClientIP_first_match_witness :
    getClientIP reqTwoValid = "1.1.1.1".toList ∧
    getClientIP reqFirstInvalid = "2.2.2.2".toList :=
  ⟨(getClientIP_first_match reqTwoValid "CF-Connecting-IP".toList (by decide)).trans
      (by decide),
   (getClientIP_first_match reqFirstInvalid "X-Real-IP".toList (by decide)).trans
      (by decide)⟩

/-- C2. `X-Forwarded-For` uses only its first entry: when none of the five headers before
it yields a valid IP and its value is not empty, the first entry of the split is the text
before the first comma; if that entry, trimmed, is a valid IP, `getClientIP` returns that
IP whatever follows the comma (the canonical form of the entry, a string that parses to
the same address as the entry), and if it is not, `getClientIP` returns what the
peer-address steps give. -/
theorem getClientIP_forwarded_first_entry (r : Request)
    (hhigh : ∀ h ∈ headers.take 5, yieldsValidIP r h = false)
    (hne : r.Header.Get "X-Forwarded-For".toList ≠ []) :
    (Split (r.Header.Get "X-Forwarded-For".toList) ',').head? =
        some ((r.Header.Get "X-Forwarded-For".toList).takeWhile (· ≠ ',')) ∧
    (validateIP (TrimSpace ((r.Header.Get "X-Forwarded-For".toList).takeWhile (· ≠ ','))) ≠ [] →
      getClientIP r =
        validateIP (TrimSpace ((r.Header.Get "X-Forwarded-For".toList).takeWhile (· ≠ ','))) ∧
      ParseIP (getClientIP r) =
        ParseIP (TrimSpace ((r.Header.Get "X-Forwarded-For".toList).takeWhile (· ≠ ',')))) ∧
    (validateIP (TrimSpace ((r.Header.Get "X-Forwarded-For".toList).takeWhile (· ≠ ','))) = [] →
      getClientIP r = peerFallback r.RemoteAddr) := by
  have hsplit := Split_head (r.Header.Get "X-Forwarded-For".toList) ','
  have hheadD : (Split (r.Header.Get "X-Forwarded-For".toList) ',').headD [] =
      (r.Header.Get "X-Forwarded-For".toList).takeWhile (· ≠ ',') := by
    rw [List.headD_eq_head?_getD, hsplit]; rfl
  have hloop : getClientIPLoop r headers =
      getClientIPLoop r ["X-Forwarded-For".toList] := by
    have h5 : headers = headers.take 5 ++ ["X-Forwarded-For".toList] := by decide
    rw [h5, getClientIPLoop_find, getClientIPLoop_find, List.find?_append]
    have : (headers.take 5).find? (yieldsValidIP r) = none := by
      rw [List.find?_eq_none]
      intro x hx
      simp [hhigh x hx]
    rw [this]
    simp
  have hcand : candidate "X-Forwarded-For".toList (r.Header.Get "X-Forwarded-For".toList) =
      (r.Header.Get "X-Forwarded-For".toList).takeWhile (· ≠ ',') := by
    unfold candidate
    rw [if_pos rfl, hheadD]
  refine ⟨hsplit, ?_, ?_⟩
  · intro hv
    have hres : getClientIP r =
        validateIP (TrimSpace ((r.Header.Get "X-Forwarded-For".toList).takeWhile (· ≠ ','))) := by
      rw [validateIP_TrimSpace] at hv ⊢
      unfold getClientIP
      rw [hloop, getClientIPLoop_cons]
      have : yieldsValidIP r "X-Forwarded-For".toList = true := by
        unfold yieldsValidIP
        rw [hcand]
        exact decide_eq_true ⟨hne, hv⟩
      rw [this, hcand]
      rfl
    refine ⟨hres, ?_⟩
    rw [hres, ParseIP_validateIP _ hv, TrimSpace_idem]
  · intro hv
    rw [validateIP_TrimSpace] at hv
    apply getClientIP_of_none
    rw [hloop, getClientIPLoop_cons]
    have : yieldsValidIP r "X-Forwarded-For".toList = false := by
      unfold yieldsValidIP
      rw [hcand]
      exact decide_eq_false (fun h => h.2 hv)
    rw [this]
    rfl

theorem getClientIP_forwarded_first_entry_witness :
    getClientIP reqForwarded = "3.3.3.3".toList ∧
    getClientIP reqForwardedV6 = "2001:db8::1".toList ∧
    getClientIP reqForwardedBad = "198.51.100.7".toList :=
  ⟨((getClientIP_forwarded_first_entry reqForwarded (by decide) (by decide)).2.1
      (by decide)).1.trans (by decide),
   ((getClientIP_forwarded_first_entry reqForwardedV6 (by decide) (by decide)).2.1
      (by decide)).1.trans (by decide),
   ((getClientIP_forwarded_first_entry reqForwardedBad (by decide) (by decide)).2.2
      (by decide)).trans (by decide)⟩

/-- C3. Peer-address fallback strips the port: when no priority header yields a valid IP,
a `RemoteAddr` that splits into host and port (so that it reads `host:port` or
`[host]:port`) with a valid host gives the canonical form of the host alone, and a
`RemoteAddr` that does not split and is itself a valid IP gives its canonical form. -/
theorem getClientIP_peer_fallback (r : Request)
    (hnone : ∀ h ∈ headers, yieldsValidIP r h = false) :
    (∀ host port, SplitHostPort r.RemoteAddr = some (host, port) →
      validateIP host ≠ [] →
      (r.RemoteAddr = host ++ ':' :: port ∨ r.RemoteAddr = '[' :: (host ++ ']' :: ':' :: port)) ∧
      getClientIP r = validateIP host) ∧
    (SplitHostPort r.RemoteAddr = none → validateIP r.RemoteAddr ≠ [] →
      getClientIP r = validateIP r.RemoteAddr) := by
  have h0 := getClientIPLoop_none r headers hnone
  constructor
  · intro host port hs hv
    refine ⟨SplitHostPort_eq _ _ _ hs, ?_⟩
    unfold getClientIP
    rw [h0, hs]
    simp [hv]
  · intro hs hv
    unfold getClientIP
    rw [h0, hs]
    simp [hv]

theorem getClientIP_peer_fallback_witness :
    getClientIP reqPeer = "203.0.113.5".toList ∧
    getClientIP reqPeerNoPort = "203.0.113.5".toList :=
  ⟨((getClientIP_peer_fallback reqPeer (by decide)).1
      "203.0.113.5".toList "51234".toList (by decide) (by decide)).2.trans (by decide),
   ((getClientIP_peer_fallback reqPeerNoPort (by decide)).2
      (by decide) (by decide)).trans (by decide)⟩

/-- C4. Last resort: `getClientIP` is a total function to strings, and when no priority
header yields a valid IP and the peer address (the host part of `RemoteAddr`, or all of it
when it does not split) is not a valid IP, it returns `RemoteAddr` unchanged. -/
theorem getClientIP_last_resort (r : Request)
    (hnone : ∀ h ∈ headers, yieldsValidIP r h = false)
    (hpeer : validateIP (peerHost r.RemoteAddr) = []) :
    getClientIP r = r.RemoteAddr := by
  rw [getClientIP_of_none r (getClientIPLoop_none r headers hnone)]
  unfold peerFallback
  simp [hpeer]

theorem getClientIP_last_resort_witness :
    getClientIP reqPeerName = "localhost:8080".toList :=
  (getClientIP_last_resort reqPeerName (by decide) (by decide)).trans (by decide)


/-! ## The handlers and `getIPResponse` -/

theorem Header_Get_Set (h : Header) (key value : Str) : (h.Set key value).Get key = value := by
  unfold Header.Get Header.Set
  simp [List.lookup]

theorem getClientIPLoop_congr (r r1 : Request) (hs : List Str)
    (h : ∀ x ∈ hs, r1.Header.Get x = r.Header.Get x) :
    getClientIPLoop r1 hs = getClientIPLoop r hs := by
  induction hs with
  | nil => rfl
  | cons x rest ih =>
    have hx := h x (List.mem_cons_self x rest)
    have hrest := ih (fun y hy => h y (List.mem_cons_of_mem x hy))
    rw [getClientIPLoop_cons, getClientIPLoop_cons, hrest]
    unfold yieldsValidIP
    rw [hx]

theorem getClientIP_congr (r r1 : Request)
    (h : ∀ x ∈ headers, r1.Header.Get x = r.Header.Get x)
    (ha : r1.RemoteAddr = r.RemoteAddr) : getClientIP r1 = getClientIP r := by
  unfold getClientIP
  rw [getClientIPLoop_congr r r1 headers h, ha]

theorem pickName_eq_localName (m : Names) : pickName m = localName m := by
  unfold pickName localName Names.get
  cases hz : List.lookup "zh-CN".toList m with
  | none =>
    cases he : List.lookup "en".toList m with
    | none => simp
    | some n => simp
  | some z =>
    cases z with
    | nil =>
      cases he : List.lookup "en".toList m with
      | none => simp
      | some n => simp
    | cons c cs => simp

theorem getIPResponse_some (rd : Reader) (ip : Str) (parsedIP : IP)
    (hparse : ParseIP ip = some parsedIP) :
    getIPResponse (some rd) ip =
      (⟨ip,
        ⟨match rd.City parsedIP with
          | some city => pickName city.Country.Names
          | none => [],
         match rd.City parsedIP with
          | some city =>
            (match city.Subdivisions with
             | sub0 :: _ => pickName sub0.Names
             | [] => [])
          | none => [],
         match rd.City parsedIP with
          | some city => pickName city.City.Names
          | none => [],
         match rd.ISP parsedIP with
          | some isp => isp.ISP
          | none => [],
         match rd.City parsedIP with
          | some city => city.Location.Latitude
          | none => float64.zero,
         match rd.City parsedIP with
          | some city => city.Location.Longitude
          | none => float64.zero⟩⟩,
       [Lookup.City parsedIP, Lookup.ISP parsedIP]) := by
  unfold getIPResponse
  rw [hparse]
  dsimp only
  cases hc : rd.City parsedIP with
  | none =>
    cases hi : rd.ISP parsedIP with
    | none => rfl
    | some isp => rfl
  | some city =>
    dsimp only
    cases hs : city.Subdivisions with
    | nil =>
      cases hi : rd.ISP parsedIP with
      | none => rfl
      | some isp => rfl
    | cons sub0 t =>
      cases hi : rd.ISP parsedIP with
      | none => rfl
      | some isp => rfl

/-- C6. Plain-text mode of `/`: when the `Accept` header does not contain
`application/json` and the `format` parameter is not `json`, `handleIP` sets the content
type `text/plain`, writes exactly `getClientIP r` followed by one newline, and makes no
lookup in the database. -/
theorem handleIP_plain_text (db : Option Reader) (text : JSON → Option Str)
    (w : ResponseWriter) (r : Request)
    (haccept : Contains (r.Header.Get "Accept".toList) "application/json".toList = false)
    (hformat : r.URL.Query.Get "format".toList ≠ "json".toList) :
    (handleIP db text w r).1.Header.Get "Content-Type".toList = "text/plain".toList ∧
    (handleIP db text w r).1.Body = w.Body ++ (getClientIP r ++ ['\n']) ∧
    (handleIP db text w r).2 = [] := by
  have hc : ¬ (Contains (r.Header.Get "Accept".toList) "application/json".toList = true ∨
      r.URL.Query.Get "format".toList = "json".toList) := by
    rintro (h | h)
    · rw [haccept] at h; cases h
    · exact hformat h
  unfold handleIP
  dsimp only
  rw [if_neg hc]
  exact ⟨Header_Get_Set _ _ _, rfl, rfl⟩

theorem handleIP_plain_text_witness :
    (handleIP (some exampleReader) exampleText emptyWriter reqPlain).1.Header.Get
        "Content-Type".toList = "text/plain".toList ∧
    (handleIP (some exampleReader) exampleText emptyWriter reqPlain).1.Body =
        "203.0.113.5\n".toList ∧
    (handleIP (some exampleReader) exampleText emptyWriter reqPlain).2 = [] :=
  have h := handleIP_plain_text (some exampleReader) exampleText emptyWriter reqPlain
    (by decide) (by decide)
  ⟨h.1, h.2.1.trans (by decide), h.2.2⟩

/-- C7. Structured mode is the same on both routes: `handleIPJSON` sets the content type
`application/json` and writes the JSON text of `getIPResponse (getClientIP r)` and a
newline; its outcome is the same for two requests that agree on the six priority headers
and the peer address, whatever their `Accept` header and query; and when the `Accept`
header contains `application/json` or `format` is `json`, `handleIP` has the same outcome
as `handleIPJSON`. -/
theorem handleIPJSON_structured (db : Option Reader) (text : JSON → Option Str)
    (w : ResponseWriter) (r : Request) :
    (handleIPJSON db text w r).1.Header.Get "Content-Type".toList =
        "application/json".toList ∧
    (handleIPJSON db text w r).1.Body =
        (match text (getIPResponse db (getClientIP r)).1.toJSON with
         | some t => w.Body ++ t ++ ['\n']
         | none => w.Body) ∧
    (∀ r1 : Request, (∀ h ∈ headers, r1.Header.Get h = r.Header.Get h) →
        r1.RemoteAddr = r.RemoteAddr →
        handleIPJSON db text w r1 = handleIPJSON db text w r) ∧
    (Contains (r.Header.Get "Accept".toList) "application/json".toList = true ∨
        r.URL.Query.Get "format".toList = "json".toList →
      handleIP db text w r = handleIPJSON db text w r) := by
  refine ⟨?_, ?_, ?_, ?_⟩
  · unfold handleIPJSON Encode
    simp only
    generalize text (getIPResponse db (getClientIP r)).1.toJSON = t
    cases t with
    | none => exact Header_Get_Set _ _ _
    | some t => exact Header_Get_Set _ _ _
  · unfold handleIPJSON Encode
    simp only
    generalize text (getIPResponse db (getClientIP r)).1.toJSON = t
    cases t with
    | none => rfl
    | some t => rfl
  · intro r1 hh ha
    unfold handleIPJSON
    rw [getClientIP_congr r r1 hh ha]
  · intro h
    unfold handleIP handleIPJSON
    rw [if_pos h]

theorem handleIPJSON_structured_witness :
    handleIP none exampleText emptyWriter reqAcceptJSON =
        handleIPJSON none exampleText emptyWriter reqAcceptJSON ∧
    handleIP none exampleText emptyWriter reqFormatJSON =
        handleIPJSON none exampleText emptyWriter reqFormatJSON ∧
    handleIPJSON none exampleText emptyWriter reqAcceptJSON =
        handleIPJSON none exampleText emptyWriter reqPeer :=
  ⟨(handleIPJSON_structured none exampleText emptyWriter reqAcceptJSON).2.2.2
      (Or.inl (by decide)),
   (handleIPJSON_structured none exampleText emptyWriter reqFormatJSON).2.2.2
      (Or.inr (by decide)),
   (handleIPJSON_structured none exampleText emptyWriter reqPeer).2.2.1 reqAcceptJSON
      (by decide) (by decide)⟩

/-- C8. Location is populated only for a parseable IP with a data source: when `ip` does
not parse, or the database handle is nil, `getIPResponse` makes no lookup and returns the
record with `IP = ip`, empty `Country`, `Region`, `City`, `ISP` and zero coordinates; and
for every input the `IP` field of the result is the input string. -/
theorem getIPResponse_unpopulated (db : Option Reader) (ip : Str) :
    (ParseIP ip = none ∨ db = none →
      getIPResponse db ip =
        (⟨ip, ⟨[], [], [], [], float64.zero, float64.zero⟩⟩, [])) ∧
    (getIPResponse db ip).1.IP = ip := by
  constructor
  · intro h
    unfold getIPResponse
    rcases h with h | h
    · rw [h]
    · rw [h]
      cases ParseIP ip <;> rfl
  · cases hp : ParseIP ip with
    | none => unfold getIPResponse; rw [hp]
    | some p =>
      cases db with
      | none => unfold getIPResponse; rw [hp]
      | some rd => rw [getIPResponse_some rd ip p hp]

theorem getIPResponse_unpopulated_witness :
    getIPResponse (some exampleReader) "localhost:8080".toList =
        (⟨"localhost:8080".toList, ⟨[], [], [], [], float64.zero, float64.zero⟩⟩, []) ∧
    getIPResponse none "1.1.1.1".toList =
        (⟨"1.1.1.1".toList, ⟨[], [], [], [], float64.zero, float64.zero⟩⟩, []) :=
  ⟨(getIPResponse_unpopulated (some exampleReader) "localhost:8080".toList).1
      (Or.inl (by decide)),
   (getIPResponse_unpopulated none "1.1.1.1".toList).1 (Or.inr rfl)⟩

/-- C9. Locale fallback for names: after a successful city lookup, `Country`, `Region`
(from the first subdivision) and `City` are each the `zh-CN` name when it is present and
not empty, otherwise the `en` name, otherwise empty; `Region` is empty when the record has
no subdivisions; `Latitude` and `Longitude` are those of the record. -/
theorem getIPResponse_locale_fallback (rd : Reader) (ip : Str) (parsedIP : IP)
    (city : CityRecord) (hparse : ParseIP ip = some parsedIP)
    (hcity : rd.City parsedIP = some city) :
    (getIPResponse (some rd) ip).1.Location.Country = localName city.Country.Names ∧
    (getIPResponse (some rd) ip).1.Location.Region =
        (match city.Subdivisions with
         | [] => []
         | sub0 :: _ => localName sub0.Names) ∧
    (getIPResponse (some rd) ip).1.Location.City = localName city.City.Names ∧
    (getIPResponse (some rd) ip).1.Location.Latitude = city.Location.Latitude ∧
    (getIPResponse (some rd) ip).1.Location.Longitude = city.Location.Longitude := by
  rw [getIPResponse_some rd ip parsedIP hparse]
  rw [hcity]
  simp only [← pickName_eq_localName]
  cases city.Subdivisions <;> simp only [and_self]

theorem getIPResponse_locale_fallback_witness :
    (getIPResponse (some exampleReader) "1.1.1.1".toList).1.Location.Country =
        "澳大利亚".toList ∧
    (getIPResponse (some exampleReader) "1.1.1.1".toList).1.Location.Region =
        "Queensland".toList ∧
    (getIPResponse (some exampleReader) "1.1.1.1".toList).1.Location.City = [] ∧
    (getIPResponse (some exampleReader) "1.1.1.1".toList).1.Location.Latitude =
        ⟨0x4040000000000000⟩ ∧
    (getIPResponse (some exampleReader) "1.1.1.1".toList).1.Location.Longitude =
        ⟨0x4060A00000000000⟩ :=
  have h := getIPResponse_locale_fallback exampleReader "1.1.1.1".toList
    [0, 0, 0, 0, 0, 0, 0, 0, 0, 0, 255, 255, 1, 1, 1, 1] exampleCity (by decide) rfl
  ⟨h.1.trans (by decide), h.2.1.trans (by decide), h.2.2.1.trans (by decide),
   h.2.2.2.1, h.2.2.2.2⟩

/-- C10. The ISP is looked up independently and degrades to absent: for a parseable `ip`
and a database, `ISP` is the name the ISP lookup returns when it succeeds, whatever the
city lookup did, and is empty when the ISP lookup fails; the other location fields are
the same for two readers with the same city lookup, whatever their ISP lookups do; and
the `location` object of the JSON value has a key `isp` exactly when `ISP` is not empty. -/
theorem getIPResponse_isp (rd : Reader) (ip : Str) (parsedIP : IP)
    (hparse : ParseIP ip = some parsedIP) :
    (∀ isp : ISPRecord, rd.ISP parsedIP = some isp →
      (getIPResponse (some rd) ip).1.Location.ISP = isp.ISP) ∧
    (rd.ISP parsedIP = none → (getIPResponse (some rd) ip).1.Location.ISP = []) ∧
    (∀ rd1 : Reader, rd1.City parsedIP = rd.City parsedIP →
      { (getIPResponse (some rd1) ip).1.Location with ISP := [] } =
        { (getIPResponse (some rd) ip).1.Location with ISP := [] }) ∧
    (∀ v : IPResponse,
      ("isp".toList ∈ ((v.toJSON.field "location".toList).map JSON.keys).getD [] ↔
        v.Location.ISP ≠ [])) := by
  refine ⟨?_, ?_, ?_, ?_⟩
  · intro isp hisp
    rw [getIPResponse_some rd ip parsedIP hparse]
    simp only [hisp]
  · intro hisp
    rw [getIPResponse_some rd ip parsedIP hparse]
    simp only [hisp]
  · intro rd1 hc
    rw [getIPResponse_some rd ip parsedIP hparse, getIPResponse_some rd1 ip parsedIP hparse,
      hc]
  · intro v
    unfold IPResponse.toJSON JSON.field
    by_cases h1 : v.Location.ISP = [] <;> by_cases h2 : v.Location.Latitude.isZero = true <;>
      by_cases h3 : v.Location.Longitude.isZero = true <;>
      simp [h1, h2, h3, List.lookup, JSON.keys]

theorem getIPResponse_isp_witness :
    (getIPResponse (some exampleReaderISP) "1.1.1.1".toList).1.Location.ISP =
        "Example Net".toList ∧
    (getIPResponse (some exampleReader) "1.1.1.1".toList).1.Location.ISP = [] :=
  ⟨(getIPResponse_isp exampleReaderISP "1.1.1.1".toList
      [0, 0, 0, 0, 0, 0, 0, 0, 0, 0, 255, 255, 1, 1, 1, 1] (by decide)).1
      ⟨"Example Net".toList⟩ rfl,
   (getIPResponse_isp exampleReader "1.1.1.1".toList
      [0, 0, 0, 0, 0, 0, 0, 0, 0, 0, 255, 255, 1, 1, 1, 1] (by decide)).2.1 rfl⟩


/-- C5, as stated, fails: for a request without headers from the IPv6 link-local peer
`[fe80::1%eth0]:51234` the string `getClientIP` returns does not parse as an IP address
and is not a fixed point of `validateIP`. -/
theorem getClientIP_raw_peer_not_canonical :
    getClientIP reqPeerZone = "[fe80::1%eth0]:51234".toList ∧
    ParseIP (getClientIP reqPeerZone) = none ∧
    ¬ (validateIP (getClientIP reqPeerZone) = getClientIP reqPeerZone) := by
  decide

/-- C5, amended. When some priority header yields a valid IP, or the peer address (the
host part of `RemoteAddr`, or all of it when it does not split) is a valid IP, the string
`getClientIP` returns parses as an IP address and is the canonical string form of that
address: `validateIP (getClientIP r) = getClientIP r`. -/
theorem getClientIP_canonical (r : Request)
    (h : (∃ x ∈ headers, yieldsValidIP r x = true) ∨ validateIP (peerHost r.RemoteAddr) ≠ []) :
    (∃ ip, ParseIP (getClientIP r) = some ip ∧ IP.String ip = getClientIP r) ∧
    validateIP (getClientIP r) = getClientIP r := by
  have key : ∃ c, validateIP c ≠ [] ∧ getClientIP r = validateIP c := by
    cases hf : headers.find? (yieldsValidIP r) with
    | some x =>
      refine ⟨candidate x (r.Header.Get x), ?_, ?_⟩
      swap
      · unfold getClientIP
        rw [getClientIPLoop_find, hf]
        rfl
      have hy := List.find?_some hf
      unfold yieldsValidIP at hy
      exact (of_decide_eq_true hy).2
    | none =>
      have hnone : getClientIPLoop r headers = none := by
        rw [getClientIPLoop_find, hf]
        rfl
      rcases h with ⟨x, hx, hy⟩ | h
      · rw [List.find?_eq_none] at hf
        exact absurd hy (hf x hx)
      · refine ⟨peerHost r.RemoteAddr, h, ?_⟩
        rw [getClientIP_of_none r hnone]
        unfold peerFallback
        rw [if_pos h]
  obtain ⟨c, hc, hres⟩ := key
  rw [hres]
  exact ⟨validateIP_ne_nil c hc, validateIP_idem c⟩

theorem getClientIP_canonical_witness :
    validateIP (getClientIP reqTwoValid) = getClientIP reqTwoValid ∧
    validateIP (getClientIP reqPeer) = getClientIP reqPeer :=
  ⟨(getClientIP_canonical reqTwoValid
      (Or.inl ⟨"CF-Connecting-IP".toList, by decide, by decide⟩)).2,
   (getClientIP_canonical reqPeer (Or.inr (by decide))).2⟩

end IpCheck
